import Mathlib

/-!
# Verification of the slot-scheduling and indexing core of `github-reporter`

This development gives a shallow embedding of the scheduling, storage-index
and run-orchestration core of the repository and proves (or refutes) the
specification claims about it.

Conventions of the embedding:

* Instants are modelled as minutes since the Unix epoch (`Int`).  The source
  stores instants as ISO-8601 UTC strings produced by `Date.toISOString`;
  for the fixed `YYYY-MM-DDTHH:MM` layout used throughout, lexicographic
  string order and chronological order coincide, so `Int` comparison is an
  order-faithful model of the string comparisons in the source.
* JavaScript `Date` calendar arithmetic (ECMA-262 `MakeDay`/`MakeTime`
  normalisation over the proleptic Gregorian calendar) is modelled with
  Howard Hinnant's well-known civil-from-days / days-from-civil algorithms,
  which implement exactly that calendar.  `Int` division `/` and `%` are
  Euclidean; all divisors below are positive so they agree with the
  floor-division semantics of the JavaScript formulas.
* A time zone is modelled as its offset function `Int → Int`
  (UTC instant in minutes ↦ offset in minutes), which is precisely the data
  the source extracts from `Intl.DateTimeFormat` via `getOffsetMinutes`.
-/

set_option maxHeartbeats 8000000

/-- A civil (proleptic Gregorian) date. -/
structure Civil where
  year : Int
  month : Int
  day : Int
deriving DecidableEq

/-- Days since 1970-01-01 of the first day of the linear month `k`,
where `k = year * 12 + (month - 1)`.  This is Howard Hinnant's
`days_from_civil` specialised to day 1, which is the month-start arithmetic
underlying ECMAScript `MakeDay`. -/
def monthStartLin (k : Int) : Int :=
  let y0 := k / 12
  let m := k % 12 + 1
  let y := y0 - (if m ≤ 2 then 1 else 0)
  let era := y / 400
  let yoe := y - era * 400
  let doy := (153 * (m + (if 2 < m then -3 else 9)) + 2) / 5
  let doe := yoe * 365 + yoe / 4 - yoe / 100 + doy
  era * 146097 + doe - 719468

/-- ECMAScript `MakeDay`: day number since the epoch from a year, a
zero-based month index (overflow is carried into the year) and a day of
month (overflow is carried into following months). -/
def jsMakeDay (y m0 d : Int) : Int :=
  monthStartLin (y * 12 + m0) + d - 1

/-- Proleptic Gregorian civil date of a day number since the epoch
(Howard Hinnant's `civil_from_days`); this is the calendar mapping behind
`Date.prototype.getUTCFullYear/getUTCMonth/getUTCDate`. -/
def civilFromDays (z : Int) : Civil :=
  let z' := z + 719468
  let era := z' / 146097
  let doe := z' - era * 146097
  let yoe := (doe - doe / 1460 + doe / 36524 - doe / 146096) / 365
  let y := yoe + era * 400
  let doy := doe - (365 * yoe + yoe / 4 - yoe / 100)
  let mp := (5 * doy + 2) / 153
  let d := doy - (153 * mp + 2) / 5 + 1
  let m := mp + (if mp < 10 then 3 else -9)
  ⟨y + (if m ≤ 2 then 1 else 0), m, d⟩

/-- The ECMAScript leap-year predicate (proleptic Gregorian). -/
def isLeap (y : Int) : Bool :=
  (y % 4 == 0 && y % 100 != 0) || y % 400 == 0

/-- Number of days of month `m` of year `y` (Gregorian). -/
def daysInMonth (y m : Int) : Int :=
  if m = 2 then (if isLeap y then 29 else 28)
  else if m = 4 ∨ m = 6 ∨ m = 9 ∨ m = 11 then 30
  else 31

/-- Within one 400-year era: bounds for the year-of-era and day-of-year
recovered by Hinnant's formulas, with every division presented as a
quotient/remainder pair. -/
theorem hinnant_era_bounds (doe q1 r1 q2 r2 q3 r3 n yoe s yq4 yr4 yq100 yr100 : Int)
    (h0 : 0 ≤ doe) (h1 : doe ≤ 146096)
    (hd1 : doe = 1460 * q1 + r1) (hr1 : 0 ≤ r1) (hr1' : r1 < 1460)
    (hd2 : doe = 36524 * q2 + r2) (hr2 : 0 ≤ r2) (hr2' : r2 < 36524)
    (hd3 : doe = 146096 * q3 + r3) (hr3 : 0 ≤ r3) (hr3' : r3 < 146096)
    (hn : n = doe - q1 + q2 - q3)
    (hy : n = 365 * yoe + s) (hs : 0 ≤ s) (hs' : s < 365)
    (hy4 : yoe = 4 * yq4 + yr4) (hyr4 : 0 ≤ yr4) (hyr4' : yr4 < 4)
    (hy100 : yoe = 100 * yq100 + yr100) (hyr100 : 0 ≤ yr100) (hyr100' : yr100 < 100) :
    0 ≤ yoe ∧ yoe ≤ 399 ∧
    0 ≤ doe - (365 * yoe + yq4 - yq100) ∧
    doe - (365 * yoe + yq4 - yq100) ≤ 365 := by
  have hq2 : 0 ≤ q2 ∧ q2 ≤ 4 := by omega
  have hq3 : 0 ≤ q3 ∧ q3 ≤ 1 := by omega
  have hq100 : 0 ≤ yq100 ∧ yq100 ≤ 3 := by omega
  obtain ⟨hq2a, hq2b⟩ := hq2
  obtain ⟨hq3a, hq3b⟩ := hq3
  obtain ⟨hq100a, hq100b⟩ := hq100
  interval_cases q2 <;> interval_cases q3 <;> interval_cases yq100 <;> omega

/-- Linear core of the `days → civil → days` round trip. -/
theorem roundtrip_core
    (z z' era doe q1 q2 q3 n yoe yq4 yq100 doy mp u d m mm yy k k0 m2 y2 era2 yoe2 a4 a100 w : Int)
    (hz : z' = z + 719468)
    (hera : z' = 146097 * era + doe) (hdoe0 : 0 ≤ doe) (hdoe1 : doe < 146097)
    (hq1 : ∃ r, doe = 1460 * q1 + r ∧ 0 ≤ r ∧ r < 1460)
    (hq2 : ∃ r, doe = 36524 * q2 + r ∧ 0 ≤ r ∧ r < 36524)
    (hq3 : ∃ r, doe = 146096 * q3 + r ∧ 0 ≤ r ∧ r < 146096)
    (hn : n = doe - q1 + q2 - q3)
    (hyoe : ∃ r, n = 365 * yoe + r ∧ 0 ≤ r ∧ r < 365)
    (hq4 : ∃ r, yoe = 4 * yq4 + r ∧ 0 ≤ r ∧ r < 4)
    (hq100 : ∃ r, yoe = 100 * yq100 + r ∧ 0 ≤ r ∧ r < 100)
    (hdoy : doy = doe - (365 * yoe + yq4 - yq100))
    (hmp : ∃ r, 5 * doy + 2 = 153 * mp + r ∧ 0 ≤ r ∧ r < 153)
    (hu : ∃ r, 153 * mp + 2 = 5 * u + r ∧ 0 ≤ r ∧ r < 5)
    (hd : d = doy - u + 1)
    (hm : (mp < 10 ∧ m = mp + 3) ∨ (10 ≤ mp ∧ m = mp - 9))
    (hmm : (m ≤ 2 ∧ mm = 1) ∨ (2 < m ∧ mm = 0))
    (hyy : yy = yoe + era * 400 + mm)
    (hk : k = yy * 12 + m - 1)
    (hk0 : k = 12 * k0 + (m2 - 1)) (hm2a : 1 ≤ m2) (hm2b : m2 ≤ 12)
    (hy2 : (m2 ≤ 2 ∧ y2 = k0 - 1) ∨ (2 < m2 ∧ y2 = k0))
    (hera2 : y2 = 400 * era2 + yoe2) (hyoe2a : 0 ≤ yoe2) (hyoe2b : yoe2 < 400)
    (ha4 : ∃ r, yoe2 = 4 * a4 + r ∧ 0 ≤ r ∧ r < 4)
    (ha100 : ∃ r, yoe2 = 100 * a100 + r ∧ 0 ≤ r ∧ r < 100)
    (hw : (2 < m2 ∧ ∃ r, 153 * (m2 - 3) + 2 = 5 * w + r ∧ 0 ≤ r ∧ r < 5) ∨
          (m2 ≤ 2 ∧ ∃ r, 153 * (m2 + 9) + 2 = 5 * w + r ∧ 0 ≤ r ∧ r < 5)) :
    era2 * 146097 + (yoe2 * 365 + a4 - a100 + w) - 719468 + d - 1 = z := by
  obtain ⟨r1, hq1, hr1a, hr1b⟩ := hq1
  obtain ⟨r2, hq2, hr2a, hr2b⟩ := hq2
  obtain ⟨r3, hq3, hr3a, hr3b⟩ := hq3
  obtain ⟨ry, hyoe, hrya, hryb⟩ := hyoe
  obtain ⟨r4, hq4, hr4a, hr4b⟩ := hq4
  obtain ⟨r100, hq100, hr100a, hr100b⟩ := hq100
  obtain ⟨hyb0, hyb1, hdoy0, hdoy1⟩ :=
    hinnant_era_bounds doe q1 r1 q2 r2 q3 r3 n yoe ry yq4 r4 yq100 r100
      hdoe0 (by omega) hq1 hr1a hr1b hq2 hr2a hr2b hq3 hr3a hr3b hn hyoe hrya hryb
      hq4 hr4a hr4b hq100 hr100a hr100b
  clear hq1 hq2 hq3 hn hyoe hr1a hr1b hr2a hr2b hr3a hr3b hrya hryb
  obtain ⟨rmp, hmp, hrmpa, hrmpb⟩ := hmp
  obtain ⟨ru, hu, hrua, hrub⟩ := hu
  obtain ⟨ra4, ha4, hra4a, hra4b⟩ := ha4
  obtain ⟨ra100, ha100, hra100a, hra100b⟩ := ha100
  obtain ⟨hw1, rw, hw, hrwa, hrwb⟩ | ⟨hw1, rw, hw, hrwa, hrwb⟩ := hw <;>
  obtain ⟨hm1, hm2⟩ | ⟨hm1, hm2⟩ := hm <;>
  obtain ⟨hmm1, hmm2⟩ | ⟨hmm1, hmm2⟩ := hmm <;>
  obtain ⟨hy21, hy22⟩ | ⟨hy21, hy22⟩ := hy2 <;>
  (try omega) <;>
  (obtain ⟨hkm1, hkm2⟩ : k0 = yy ∧ m2 = m := by omega) <;>
  (obtain ⟨hee1, hee2⟩ : era2 = era ∧ yoe2 = yoe := by omega) <;>
  (obtain ⟨haa1, haa2⟩ : a4 = yq4 ∧ a100 = yq100 := by omega) <;>
  (have hwu : w = u := by omega) <;>
  omega

/-- Round trip: re-encoding the civil date of a day number yields the day
number back (for every `z`, however far from the epoch). -/
theorem jsMakeDay_civilFromDays (z : Int) :
    jsMakeDay (civilFromDays z).year ((civilFromDays z).month - 1) (civilFromDays z).day = z := by
  simp only [civilFromDays, jsMakeDay, monthStartLin]
  set z' := z + 719468 with hz'def
  set era := z' / 146097 with heradef
  set doe := z' - era * 146097 with hdoedef
  set q1 := doe / 1460 with hq1def
  set q2 := doe / 36524 with hq2def
  set q3 := doe / 146096 with hq3def
  set n := doe - q1 + q2 - q3 with hndef
  set yoe := n / 365 with hyoedef
  set yq4 := yoe / 4 with hyq4def
  set yq100 := yoe / 100 with hyq100def
  set doy := doe - (365 * yoe + yq4 - yq100) with hdoydef
  set mp := (5 * doy + 2) / 153 with hmpdef
  set u := (153 * mp + 2) / 5 with hudef
  set d := doy - u + 1 with hddef
  set msh := (if mp < 10 then (3 : Int) else -9) with hmshdef
  set m := mp + msh with hmdef
  set mm := (if m ≤ 2 then (1 : Int) else 0) with hmmdef
  set yy := yoe + era * 400 + mm with hyydef
  set k := yy * 12 + (m - 1) with hkdef
  set k0 := k / 12 with hk0def
  set m2 := k % 12 + 1 with hm2def
  set mm2 := (if m2 ≤ 2 then (1 : Int) else 0) with hmm2def
  set y2 := k0 - mm2 with hy2def
  set era2 := y2 / 400 with hera2def
  set yoe2 := y2 - era2 * 400 with hyoe2def
  set a4 := yoe2 / 4 with ha4def
  set a100 := yoe2 / 100 with ha100def
  set sh2 := (if 2 < m2 then (-3 : Int) else 9) with hsh2def
  set w := (153 * (m2 + sh2) + 2) / 5 with hwdef
  have hm : (mp < 10 ∧ m = mp + 3) ∨ (10 ≤ mp ∧ m = mp - 9) := by
    by_cases h : mp < 10
    · have : msh = 3 := by rw [hmshdef, if_pos h]
      exact Or.inl ⟨h, by omega⟩
    · have : msh = -9 := by rw [hmshdef, if_neg h]
      exact Or.inr ⟨by omega, by omega⟩
  have hmm : (m ≤ 2 ∧ mm = 1) ∨ (2 < m ∧ mm = 0) := by
    by_cases h : m ≤ 2
    · have : mm = 1 := by rw [hmmdef, if_pos h]
      exact Or.inl ⟨h, this⟩
    · have : mm = 0 := by rw [hmmdef, if_neg h]
      exact Or.inr ⟨by omega, this⟩
  have hy2 : (m2 ≤ 2 ∧ y2 = k0 - 1) ∨ (2 < m2 ∧ y2 = k0) := by
    by_cases h : m2 ≤ 2
    · have : mm2 = 1 := by rw [hmm2def, if_pos h]
      exact Or.inl ⟨h, by omega⟩
    · have : mm2 = 0 := by rw [hmm2def, if_neg h]
      exact Or.inr ⟨by omega, by omega⟩
  have hw : (2 < m2 ∧ ∃ r, 153 * (m2 - 3) + 2 = 5 * w + r ∧ 0 ≤ r ∧ r < 5) ∨
      (m2 ≤ 2 ∧ ∃ r, 153 * (m2 + 9) + 2 = 5 * w + r ∧ 0 ≤ r ∧ r < 5) := by
    by_cases h : 2 < m2
    · have hs : sh2 = -3 := by rw [hsh2def, if_pos h]
      rw [hs] at hwdef
      have harith : (153 * (m2 + -3) + 2 : Int) = 153 * m2 - 457 := by ring
      rw [harith] at hwdef
      exact Or.inl ⟨h, ⟨153 * (m2 - 3) + 2 - 5 * w, by ring_nf, by omega, by omega⟩⟩
    · have hs : sh2 = 9 := by rw [hsh2def, if_neg h]
      rw [hs] at hwdef
      have harith : (153 * (m2 + 9) + 2 : Int) = 153 * m2 + 1379 := by ring
      rw [harith] at hwdef
      exact Or.inr ⟨by omega, ⟨153 * (m2 + 9) + 2 - 5 * w, by ring_nf, by omega, by omega⟩⟩
  have H := roundtrip_core z z' era doe q1 q2 q3 n yoe yq4 yq100 doy mp u d m mm yy k k0 m2 y2
    era2 yoe2 a4 a100 w
    hz'def (by omega) (by omega) (by omega)
    ⟨doe % 1460, by omega⟩ ⟨doe % 36524, by omega⟩ ⟨doe % 146096, by omega⟩
    hndef ⟨n % 365, by omega⟩ ⟨yoe % 4, by omega⟩ ⟨yoe % 100, by omega⟩
    hdoydef ⟨(5 * doy + 2) % 153, by omega⟩ ⟨(153 * mp + 2) % 5, by omega⟩
    hddef hm hmm hyydef (by omega) (by omega) (by omega) (by omega)
    hy2 (by omega) (by omega) (by omega)
    ⟨yoe2 % 4, by omega⟩ ⟨yoe2 % 100, by omega⟩ hw
  omega

/-- Within one era, the year-of-era formula inverts the year-start sum. -/
theorem hinnant_era_inv (yoe yq4 yq100 doy doe q1 q2 q3 n yoe2 : Int)
    (hyoe0 : 0 ≤ yoe) (hyoe1 : yoe ≤ 399)
    (hq4 : ∃ r, yoe = 4 * yq4 + r ∧ 0 ≤ r ∧ r < 4)
    (hq100 : ∃ r, yoe = 100 * yq100 + r ∧ 0 ≤ r ∧ r < 100)
    (hdoy0 : 0 ≤ doy)
    (hdoyB : doy ≤ 364 ∨ (doy = 365 ∧
      ((yoe + 1) % 4 = 0 ∧ ¬((yoe + 1) % 100 = 0) ∨ (yoe + 1) % 400 = 0)))
    (hdoe : doe = 365 * yoe + yq4 - yq100 + doy)
    (hq1 : ∃ r, doe = 1460 * q1 + r ∧ 0 ≤ r ∧ r < 1460)
    (hq2 : ∃ r, doe = 36524 * q2 + r ∧ 0 ≤ r ∧ r < 36524)
    (hq3 : ∃ r, doe = 146096 * q3 + r ∧ 0 ≤ r ∧ r < 146096)
    (hn : n = doe - q1 + q2 - q3)
    (hy2 : ∃ r, n = 365 * yoe2 + r ∧ 0 ≤ r ∧ r < 365) :
    yoe2 = yoe ∧ 0 ≤ doe ∧ doe ≤ 146096 := by
  obtain ⟨r4, hq4, hr4a, hr4b⟩ := hq4
  obtain ⟨r100, hq100, hr100a, hr100b⟩ := hq100
  obtain ⟨r1, hq1, hr1a, hr1b⟩ := hq1
  obtain ⟨r2, hq2, hr2a, hr2b⟩ := hq2
  obtain ⟨r3, hq3, hr3a, hr3b⟩ := hq3
  obtain ⟨s, hy2, hsa, hsb⟩ := hy2
  have hb100 : 0 ≤ yq100 ∧ yq100 ≤ 3 := by omega
  have hdoeB : 0 ≤ doe ∧ doe ≤ 146096 := by
    obtain ⟨h100a, h100b⟩ := hb100
    interval_cases yq100 <;> omega
  refine ⟨?_, hdoeB.1, hdoeB.2⟩
  have hb2 : 0 ≤ q2 ∧ q2 ≤ 4 := by omega
  have hb3 : 0 ≤ q3 ∧ q3 ≤ 1 := by omega
  obtain ⟨hb2a, hb2b⟩ := hb2
  obtain ⟨hb3a, hb3b⟩ := hb3
  obtain ⟨h100a, h100b⟩ := hb100
  interval_cases q2 <;> interval_cases q3 <;> interval_cases yq100 <;> omega

/-- The day-of-year of a valid date lies inside its Hinnant year, with the
366th day only on a leap Hinnant year. -/
theorem r2_key (mv d mmf a era yoe mp dm rdm : Int)
    (hmv : 1 ≤ mv ∧ mv ≤ 12) (hd1 : 1 ≤ d)
    (hLd : (mv = 2 ∧ ((a % 4 = 0 ∧ ¬(a % 100 = 0) ∨ a % 400 = 0) ∧ d ≤ 29 ∨
                      ¬(a % 4 = 0 ∧ ¬(a % 100 = 0) ∨ a % 400 = 0) ∧ d ≤ 28)) ∨
           (¬(mv = 2) ∧ (mv = 4 ∨ mv = 6 ∨ mv = 9 ∨ mv = 11) ∧ d ≤ 30) ∨
           (¬(mv = 2) ∧ ¬(mv = 4 ∨ mv = 6 ∨ mv = 9 ∨ mv = 11) ∧ d ≤ 31))
    (hmmf : (mv ≤ 2 ∧ mmf = 1) ∨ (2 < mv ∧ mmf = 0))
    (ha : a = 400 * era + yoe + mmf)
    (hyoe : 0 ≤ yoe ∧ yoe ≤ 399)
    (hmp : (2 < mv ∧ mp = mv - 3) ∨ (mv ≤ 2 ∧ mp = mv + 9))
    (hdm : 153 * mp + 2 = 5 * dm + rdm) (hrdm : 0 ≤ rdm ∧ rdm < 5) :
    0 ≤ dm + d - 1 ∧
    (dm + d - 1 ≤ 364 ∨ (dm + d - 1 = 365 ∧
      ((yoe + 1) % 4 = 0 ∧ ¬((yoe + 1) % 100 = 0) ∨ (yoe + 1) % 400 = 0))) := by
  obtain ⟨hmp1, hmp2⟩ | ⟨hmp1, hmp2⟩ := hmp <;>
  obtain ⟨hf1, hf2⟩ | ⟨hf1, hf2⟩ := hmmf <;> omega

/-- Recovering the shifted month, month start and day from a valid
day-of-year. -/
theorem r2_month (mv d mp dm rdm doy2 mp2 rmp2 u2 ru2 d2 : Int)
    (hmv : 1 ≤ mv ∧ mv ≤ 12) (hd1 : 1 ≤ d)
    (hdB : d ≤ 31 ∧ (mv = 2 → d ≤ 29) ∧ ((mv = 4 ∨ mv = 6 ∨ mv = 9 ∨ mv = 11) → d ≤ 30))
    (hmp : (2 < mv ∧ mp = mv - 3) ∨ (mv ≤ 2 ∧ mp = mv + 9))
    (hdm : 153 * mp + 2 = 5 * dm + rdm) (hrdm : 0 ≤ rdm ∧ rdm < 5)
    (hdoy2 : doy2 = dm + d - 1)
    (hmp2 : 5 * doy2 + 2 = 153 * mp2 + rmp2) (hrmp2 : 0 ≤ rmp2 ∧ rmp2 < 153)
    (hu2 : 153 * mp2 + 2 = 5 * u2 + ru2) (hru2 : 0 ≤ ru2 ∧ ru2 < 5)
    (hd2 : d2 = doy2 - u2 + 1) :
    mp2 = mp ∧ u2 = dm ∧ d2 = d := by
  obtain ⟨hmv1, hmv2⟩ := hmv
  have h1 : mp2 = mp := by
    obtain ⟨hmp1, hmp2'⟩ | ⟨hmp1, hmp2'⟩ := hmp <;> interval_cases mv <;> omega
  refine ⟨h1, by omega, by omega⟩

/-- Linear core of the `civil → days → civil` round trip for valid dates,
with every division presented as a quotient/remainder pair. -/
theorem roundtrip2_core
    (a mv d mmf yH era re yoe yq4 r4 yq100 r100 mp dm rdm z z' era2 re2 doeB
      q1 r1 q2 r2 q3 r3 n yoe2 s2 b4 rb4 b100 rb100 doy2 mp2 rmp2 u2 ru2 d2 m2 y2 : Int)
    (hmv1 : 1 ≤ mv) (hmv2 : mv ≤ 12)
    (hd1 : 1 ≤ d)
    (hLd : (mv = 2 ∧ ((a % 4 = 0 ∧ ¬(a % 100 = 0) ∨ a % 400 = 0) ∧ d ≤ 29 ∨
                      ¬(a % 4 = 0 ∧ ¬(a % 100 = 0) ∨ a % 400 = 0) ∧ d ≤ 28)) ∨
           (¬(mv = 2) ∧ (mv = 4 ∨ mv = 6 ∨ mv = 9 ∨ mv = 11) ∧ d ≤ 30) ∨
           (¬(mv = 2) ∧ ¬(mv = 4 ∨ mv = 6 ∨ mv = 9 ∨ mv = 11) ∧ d ≤ 31))
    (hmmf : (mv ≤ 2 ∧ mmf = 1) ∨ (2 < mv ∧ mmf = 0))
    (hyH : yH = a - mmf)
    (hera : yH = 400 * era + re) (hrea : 0 ≤ re) (hreb : re < 400)
    (hyoe : yoe = yH - era * 400)
    (hq4 : yoe = 4 * yq4 + r4) (hr4a : 0 ≤ r4) (hr4b : r4 < 4)
    (hq100 : yoe = 100 * yq100 + r100) (hr100a : 0 ≤ r100) (hr100b : r100 < 100)
    (hmp : (2 < mv ∧ mp = mv - 3) ∨ (mv ≤ 2 ∧ mp = mv + 9))
    (hdm : 153 * mp + 2 = 5 * dm + rdm) (hdma : 0 ≤ rdm) (hdmb : rdm < 5)
    (hz : z = era * 146097 + (yoe * 365 + yq4 - yq100 + dm) - 719468 + d - 1)
    (hz' : z' = z + 719468)
    (hera2 : z' = 146097 * era2 + re2) (hre2a : 0 ≤ re2) (hre2b : re2 < 146097)
    (hdoeB : doeB = z' - era2 * 146097)
    (hq1 : doeB = 1460 * q1 + r1) (hr1a : 0 ≤ r1) (hr1b : r1 < 1460)
    (hq2 : doeB = 36524 * q2 + r2) (hr2a : 0 ≤ r2) (hr2b : r2 < 36524)
    (hq3 : doeB = 146096 * q3 + r3) (hr3a : 0 ≤ r3) (hr3b : r3 < 146096)
    (hn : n = doeB - q1 + q2 - q3)
    (hyoe2 : n = 365 * yoe2 + s2) (hs2a : 0 ≤ s2) (hs2b : s2 < 365)
    (hb4 : yoe2 = 4 * b4 + rb4) (hrb4a : 0 ≤ rb4) (hrb4b : rb4 < 4)
    (hb100 : yoe2 = 100 * b100 + rb100) (hrb100a : 0 ≤ rb100) (hrb100b : rb100 < 100)
    (hdoy2 : doy2 = doeB - (365 * yoe2 + b4 - b100))
    (hmp2 : 5 * doy2 + 2 = 153 * mp2 + rmp2) (hrmp2a : 0 ≤ rmp2) (hrmp2b : rmp2 < 153)
    (hu2 : 153 * mp2 + 2 = 5 * u2 + ru2) (hru2a : 0 ≤ ru2) (hru2b : ru2 < 5)
    (hd2v : d2 = doy2 - u2 + 1)
    (hm2 : (mp2 < 10 ∧ m2 = mp2 + 3) ∨ (10 ≤ mp2 ∧ m2 = mp2 - 9))
    (hy2v : (m2 ≤ 2 ∧ y2 = yoe2 + era2 * 400 + 1) ∨ (2 < m2 ∧ y2 = yoe2 + era2 * 400)) :
    y2 = a ∧ m2 = mv ∧ d2 = d := by
  have hyoeB : 0 ≤ yoe ∧ yoe ≤ 399 := ⟨by omega, by omega⟩
  obtain ⟨hdoy0, hkey⟩ := r2_key mv d mmf a era yoe mp dm rdm
    ⟨hmv1, hmv2⟩ hd1 hLd hmmf (by omega) hyoeB hmp hdm ⟨hdma, hdmb⟩
  obtain ⟨hiv, hdoe00, hdoe01⟩ := hinnant_era_inv yoe yq4 yq100 (dm + d - 1)
    (365 * yoe + yq4 - yq100 + (dm + d - 1)) q1 q2 q3 n yoe2
    hyoeB.1 hyoeB.2 ⟨r4, hq4, hr4a, hr4b⟩ ⟨r100, hq100, hr100a, hr100b⟩ hdoy0 hkey rfl
    ⟨r1, by omega, hr1a, hr1b⟩
    ⟨r2, by omega, hr2a, hr2b⟩
    ⟨r3, by omega, hr3a, hr3b⟩
    (by omega)
    ⟨s2, hyoe2, hs2a, hs2b⟩
  have hbb4 : b4 = yq4 := by omega
  have hbb100 : b100 = yq100 := by omega
  have hdoy2v : doy2 = dm + d - 1 := by omega
  have hdB : d ≤ 31 ∧ (mv = 2 → d ≤ 29) ∧ ((mv = 4 ∨ mv = 6 ∨ mv = 9 ∨ mv = 11) → d ≤ 30) := by
    refine ⟨by omega, fun h => by omega, fun h => by omega⟩
  obtain ⟨hmm1, hmm2, hmm3⟩ := r2_month mv d mp dm rdm doy2 mp2 rmp2 u2 ru2 d2
    ⟨hmv1, hmv2⟩ hd1 hdB hmp hdm ⟨hdma, hdmb⟩ hdoy2v hmp2 ⟨hrmp2a, hrmp2b⟩ hu2 ⟨hru2a, hru2b⟩ hd2v
  have hm2e : m2 = mv := by
    obtain ⟨hmpa, hmpb⟩ | ⟨hmpa, hmpb⟩ := hmp <;>
    obtain ⟨hm2a, hm2b⟩ | ⟨hm2a, hm2b⟩ := hm2 <;> omega
  have hy2e : y2 = a := by
    obtain ⟨hfa, hfb⟩ | ⟨hfa, hfb⟩ := hmmf <;>
    obtain ⟨hya, hyb⟩ | ⟨hya, hyb⟩ := hy2v <;> omega
  exact ⟨hy2e, hm2e, hmm3⟩

/-- Case analysis of `daysInMonth` in purely arithmetic form. -/
theorem daysInMonth_bounds (y m dv : Int) (h : dv ≤ daysInMonth y m) :
    (m = 2 ∧ ((y % 4 = 0 ∧ ¬(y % 100 = 0) ∨ y % 400 = 0) ∧ dv ≤ 29 ∨
              ¬(y % 4 = 0 ∧ ¬(y % 100 = 0) ∨ y % 400 = 0) ∧ dv ≤ 28)) ∨
    (¬(m = 2) ∧ (m = 4 ∨ m = 6 ∨ m = 9 ∨ m = 11) ∧ dv ≤ 30) ∨
    (¬(m = 2) ∧ ¬(m = 4 ∨ m = 6 ∨ m = 9 ∨ m = 11) ∧ dv ≤ 31) := by
  by_cases h2 : m = 2
  · subst h2
    by_cases hL : y % 4 = 0 ∧ ¬(y % 100 = 0) ∨ y % 400 = 0
    · refine Or.inl ⟨rfl, Or.inl ⟨hL, ?_⟩⟩
      have hLt : isLeap y = true := by
        simp only [isLeap, Bool.or_eq_true, Bool.and_eq_true, beq_iff_eq, bne_iff_ne]
        omega
      simpa [daysInMonth, hLt] using h
    · refine Or.inl ⟨rfl, Or.inr ⟨hL, ?_⟩⟩
      have hLt : isLeap y = false := by
        simp only [isLeap, Bool.or_eq_false_iff, Bool.and_eq_false_iff,
          beq_eq_false_iff_ne, bne_eq_false_iff_eq]
        omega
      simpa [daysInMonth, hLt] using h
  · by_cases h30 : m = 4 ∨ m = 6 ∨ m = 9 ∨ m = 11
    · refine Or.inr (Or.inl ⟨h2, h30, ?_⟩)
      simpa [daysInMonth, h2, h30] using h
    · refine Or.inr (Or.inr ⟨h2, h30, ?_⟩)
      simpa [daysInMonth, h2, h30] using h

/-- Inverse round trip: the day number of a valid civil date decodes to that
date.  `k` is the linear month index and `dv` the day of month. -/
theorem civilFromDays_monthStartLin (k dv : Int) (hd1 : 1 ≤ dv)
    (hd2 : dv ≤ daysInMonth (k / 12) (k % 12 + 1)) :
    civilFromDays (monthStartLin k + dv - 1) = ⟨k / 12, k % 12 + 1, dv⟩ := by
  have hLd := daysInMonth_bounds (k / 12) (k % 12 + 1) dv hd2
  simp only [civilFromDays, monthStartLin]
  set a := k / 12 with hadef
  set mv := k % 12 + 1 with hmvdef
  set mmf := (if mv ≤ 2 then (1 : Int) else 0) with hmmfdef
  set yH := a - mmf with hyHdef
  set era := yH / 400 with heradef
  set yoe := yH - era * 400 with hyoedef
  set yq4 := yoe / 4 with hyq4def
  set yq100 := yoe / 100 with hyq100def
  set sh := (if 2 < mv then (-3 : Int) else 9) with hshdef
  set dm := (153 * (mv + sh) + 2) / 5 with hdmdef
  set zv := era * 146097 + (yoe * 365 + yq4 - yq100 + dm) - 719468 + dv - 1 with hzdef
  set z' := zv + 719468 with hz'def
  set era2 := z' / 146097 with hera2def
  set doeB := z' - era2 * 146097 with hdoeBdef
  set q1 := doeB / 1460 with hq1def
  set q2 := doeB / 36524 with hq2def
  set q3 := doeB / 146096 with hq3def
  set n := doeB - q1 + q2 - q3 with hndef
  set yoe2 := n / 365 with hyoe2def
  set b4 := yoe2 / 4 with hb4def
  set b100 := yoe2 / 100 with hb100def
  set doy2 := doeB - (365 * yoe2 + b4 - b100) with hdoy2def
  set mp2 := (5 * doy2 + 2) / 153 with hmp2def
  set u2 := (153 * mp2 + 2) / 5 with hu2def
  set d2 := doy2 - u2 + 1 with hd2def
  set msh2 := (if mp2 < 10 then (3 : Int) else -9) with hmsh2def
  set m2 := mp2 + msh2 with hm2def
  set mm2 := (if m2 ≤ 2 then (1 : Int) else 0) with hmm2def
  have hmmf : (mv ≤ 2 ∧ mmf = 1) ∨ (2 < mv ∧ mmf = 0) := by
    by_cases h : mv ≤ 2
    · have : mmf = 1 := by rw [hmmfdef, if_pos h]
      exact Or.inl ⟨h, this⟩
    · have : mmf = 0 := by rw [hmmfdef, if_neg h]
      exact Or.inr ⟨by omega, this⟩
  have hmpdm : ∃ mp rdm, ((2 < mv ∧ mp = mv - 3) ∨ (mv ≤ 2 ∧ mp = mv + 9)) ∧
      153 * mp + 2 = 5 * dm + rdm ∧ 0 ≤ rdm ∧ rdm < 5 := by
    by_cases h : 2 < mv
    · have hs : sh = -3 := by rw [hshdef, if_pos h]
      rw [hs] at hdmdef
      have harith : (153 * (mv + -3) + 2 : Int) = 153 * mv - 457 := by ring
      rw [harith] at hdmdef
      exact ⟨mv - 3, 153 * (mv - 3) + 2 - 5 * dm, Or.inl ⟨h, rfl⟩, by ring_nf, by omega, by omega⟩
    · have hs : sh = 9 := by rw [hshdef, if_neg h]
      rw [hs] at hdmdef
      have harith : (153 * (mv + 9) + 2 : Int) = 153 * mv + 1379 := by ring
      rw [harith] at hdmdef
      exact ⟨mv + 9, 153 * (mv + 9) + 2 - 5 * dm, Or.inr ⟨by omega, rfl⟩, by ring_nf, by omega, by omega⟩
  obtain ⟨mp, rdm, hmp, hdm, hdma, hdmb⟩ := hmpdm
  have hm2br : (mp2 < 10 ∧ m2 = mp2 + 3) ∨ (10 ≤ mp2 ∧ m2 = mp2 - 9) := by
    by_cases h : mp2 < 10
    · have : msh2 = 3 := by rw [hmsh2def, if_pos h]
      exact Or.inl ⟨h, by omega⟩
    · have : msh2 = -9 := by rw [hmsh2def, if_neg h]
      exact Or.inr ⟨by omega, by omega⟩
  have hy2br : (m2 ≤ 2 ∧ yoe2 + era2 * 400 + mm2 = yoe2 + era2 * 400 + 1) ∨
      (2 < m2 ∧ yoe2 + era2 * 400 + mm2 = yoe2 + era2 * 400) := by
    by_cases h : m2 ≤ 2
    · have : mm2 = 1 := by rw [hmm2def, if_pos h]
      exact Or.inl ⟨h, by omega⟩
    · have : mm2 = 0 := by rw [hmm2def, if_neg h]
      exact Or.inr ⟨by omega, by omega⟩
  have H := roundtrip2_core a mv dv mmf yH era (yH % 400) yoe yq4 (yoe % 4) yq100 (yoe % 100)
    mp dm rdm zv z' era2 (z' % 146097) doeB
    q1 (doeB % 1460) q2 (doeB % 36524) q3 (doeB % 146096) n yoe2 (n % 365)
    b4 (yoe2 % 4) b100 (yoe2 % 100) doy2 mp2 ((5 * doy2 + 2) % 153) u2 ((153 * mp2 + 2) % 5)
    d2 m2 (yoe2 + era2 * 400 + mm2)
    (by omega) (by omega) hd1 hLd hmmf hyHdef
    (by omega) (by omega) (by omega)
    hyoedef
    (by omega) (by omega) (by omega)
    (by omega) (by omega) (by omega)
    hmp hdm hdma hdmb
    hzdef hz'def
    (by omega) (by omega) (by omega)
    hdoeBdef
    (by omega) (by omega) (by omega)
    (by omega) (by omega) (by omega)
    (by omega) (by omega) (by omega)
    hndef
    (by omega) (by omega) (by omega)
    (by omega) (by omega) (by omega)
    (by omega) (by omega) (by omega)
    hdoy2def
    (by omega) (by omega) (by omega)
    (by omega) (by omega) (by omega)
    hd2def hm2br hy2br
  simp only [Civil.mk.injEq]
  exact ⟨H.1, H.2.1, H.2.2⟩

/-- Month starts are strictly increasing in the linear month index. -/
theorem monthStartLin_lt_succ (k : Int) : monthStartLin k < monthStartLin (k + 1) := by
  simp only [monthStartLin]
  set a := k / 12 with hadef
  set mA := k % 12 + 1 with hmAdef
  set mmA := (if mA ≤ 2 then (1 : Int) else 0) with hmmAdef
  set yA := a - mmA with hyAdef
  set eraA := yA / 400 with heraAdef
  set yoeA := yA - eraA * 400 with hyoeAdef
  set shA := (if 2 < mA then (-3 : Int) else 9) with hshAdef
  set dmA := (153 * (mA + shA) + 2) / 5 with hdmAdef
  set b := (k + 1) / 12 with hbdef
  set mB := (k + 1) % 12 + 1 with hmBdef
  set mmB := (if mB ≤ 2 then (1 : Int) else 0) with hmmBdef
  set yB := b - mmB with hyBdef
  set eraB := yB / 400 with heraBdef
  set yoeB := yB - eraB * 400 with hyoeBdef
  set shB := (if 2 < mB then (-3 : Int) else 9) with hshBdef
  set dmB := (153 * (mB + shB) + 2) / 5 with hdmBdef
  have hk : (mA ≤ 11 ∧ b = a ∧ mB = mA + 1) ∨ (mA = 12 ∧ b = a + 1 ∧ mB = 1) := by omega
  have hmmA : (mA ≤ 2 ∧ mmA = 1) ∨ (2 < mA ∧ mmA = 0) := by
    by_cases h : mA ≤ 2
    · exact Or.inl ⟨h, by rw [hmmAdef, if_pos h]⟩
    · exact Or.inr ⟨by omega, by rw [hmmAdef, if_neg h]⟩
  have hmmB : (mB ≤ 2 ∧ mmB = 1) ∨ (2 < mB ∧ mmB = 0) := by
    by_cases h : mB ≤ 2
    · exact Or.inl ⟨h, by rw [hmmBdef, if_pos h]⟩
    · exact Or.inr ⟨by omega, by rw [hmmBdef, if_neg h]⟩
  have hdmA : ∃ r, ((2 < mA ∧ 153 * (mA - 3) + 2 = 5 * dmA + r) ∨
      (mA ≤ 2 ∧ 153 * (mA + 9) + 2 = 5 * dmA + r)) ∧ 0 ≤ r ∧ r < 5 := by
    by_cases h : 2 < mA
    · have hs : shA = -3 := by rw [hshAdef, if_pos h]
      rw [hs] at hdmAdef
      have harith : (153 * (mA + -3) + 2 : Int) = 153 * mA - 457 := by ring
      rw [harith] at hdmAdef
      exact ⟨153 * (mA - 3) + 2 - 5 * dmA, Or.inl ⟨h, by ring_nf⟩, by omega, by omega⟩
    · have hs : shA = 9 := by rw [hshAdef, if_neg h]
      rw [hs] at hdmAdef
      have harith : (153 * (mA + 9) + 2 : Int) = 153 * mA + 1379 := by ring
      rw [harith] at hdmAdef
      exact ⟨153 * (mA + 9) + 2 - 5 * dmA, Or.inr ⟨by omega, by ring_nf⟩, by omega, by omega⟩
  have hdmB : ∃ r, ((2 < mB ∧ 153 * (mB - 3) + 2 = 5 * dmB + r) ∨
      (mB ≤ 2 ∧ 153 * (mB + 9) + 2 = 5 * dmB + r)) ∧ 0 ≤ r ∧ r < 5 := by
    by_cases h : 2 < mB
    · have hs : shB = -3 := by rw [hshBdef, if_pos h]
      rw [hs] at hdmBdef
      have harith : (153 * (mB + -3) + 2 : Int) = 153 * mB - 457 := by ring
      rw [harith] at hdmBdef
      exact ⟨153 * (mB - 3) + 2 - 5 * dmB, Or.inl ⟨h, by ring_nf⟩, by omega, by omega⟩
    · have hs : shB = 9 := by rw [hshBdef, if_neg h]
      rw [hs] at hdmBdef
      have harith : (153 * (mB + 9) + 2 : Int) = 153 * mB + 1379 := by ring
      rw [harith] at hdmBdef
      exact ⟨153 * (mB + 9) + 2 - 5 * dmB, Or.inr ⟨by omega, by ring_nf⟩, by omega, by omega⟩
  obtain ⟨rA, hdmA, hrAa, hrAb⟩ := hdmA
  obtain ⟨rB, hdmB, hrBa, hrBb⟩ := hdmB
  have hyy : (yB = yA ∧ eraB = eraA ∧ yoeB = yoeA) ∨
      (yB = yA + 1 ∧ ((eraB = eraA ∧ yoeB = yoeA + 1) ∨
        (yoeA = 399 ∧ yoeB = 0 ∧ eraB = eraA + 1))) := by
    have h1 : (yB = yA) ∨ (yB = yA + 1) := by omega
    have h2 : 0 ≤ yoeA ∧ yoeA < 400 := by omega
    have h3 : 0 ≤ yoeB ∧ yoeB < 400 := by omega
    obtain h1 | h1 := h1
    · exact Or.inl ⟨h1, by omega, by omega⟩
    · refine Or.inr ⟨h1, ?_⟩
      by_cases h4 : yoeA = 399
      · exact Or.inr ⟨h4, by omega, by omega⟩
      · exact Or.inl ⟨by omega, by omega⟩
  obtain ⟨hka, hkb, hkc⟩ | ⟨hka, hkb, hkc⟩ := hk <;>
  obtain ⟨hmA1, hmA2⟩ | ⟨hmA1, hmA2⟩ := hmmA <;>
  obtain ⟨hmB1, hmB2⟩ | ⟨hmB1, hmB2⟩ := hmmB <;>
  obtain ⟨hdA1, hdA2⟩ | ⟨hdA1, hdA2⟩ := hdmA <;>
  obtain ⟨hdB1, hdB2⟩ | ⟨hdB1, hdB2⟩ := hdmB <;>
  omega

/-- monthStartLin is strictly monotone. -/
theorem monthStartLin_strictMono : StrictMono monthStartLin :=
  strictMono_int_of_lt_succ monthStartLin_lt_succ

theorem monthStartLin_mono {j k : Int} (h : j ≤ k) :
    monthStartLin j ≤ monthStartLin k :=
  monthStartLin_strictMono.monotone h

/-! ## Slot calculator (`src/github-rate-limit.ts`, slots module)

Instants are minutes since the Unix epoch.  A `timeZone` name together with
the `Intl`-based `getOffsetMinutes` helper is modelled as the offset
function `tz : Int → Int` it denotes (offset in minutes, sampled at a UTC
instant), exactly the way the source consumes it. -/

/-- The local wall-clock parts the source extracts with
`Intl.DateTimeFormat` (`getZonedParts`). -/
structure ZonedParts where
  year : Int
  month : Int
  day : Int
  hour : Int
  minute : Int
  weekday : Int
deriving DecidableEq

inductive SlotType where
  | hourly | daily | weekly | monthly | yearly
deriving DecidableEq

/-- `SlotSchedule` with its optional fields. -/
structure SlotSchedule where
  type : SlotType
  minute : Option Int
  hour : Option Int
  weekday : Option Int
  dayOfMonth : Option Int
  month : Option Int
deriving DecidableEq

/-- `SlotWindow`; the nested `window` object is flattened into the fields
`wstart`/`wend`, and the ISO-string instants are carried as minutes. -/
structure SlotWindow where
  slotKey : String
  slotType : SlotType
  scheduledAt : Int
  wstart : Int
  wend : Int
deriving DecidableEq

/-- Minutes since the epoch of a UTC calendar time (`Date.UTC`). -/
def utcMinutes (y mo d h mi : Int) : Int :=
  1440 * jsMakeDay y (mo - 1) d + 60 * h + mi

/-- The `Date.UTC(parts.year, parts.month - 1, parts.day, parts.hour,
parts.minute)` value used as `utcGuess` by `zonedTimeToUtc`. -/
def localMinutes (p : ZonedParts) : Int :=
  1440 * jsMakeDay p.year (p.month - 1) p.day + 60 * p.hour + p.minute

/-- `zonedTimeToUtc`: interpret the parts as UTC, sample the zone offset at
that guess, and subtract it. -/
def zonedTimeToUtc (p : ZonedParts) (tz : Int → Int) : Int :=
  localMinutes p - tz (localMinutes p)

/-- `getZonedParts`: the wall-clock parts of instant `t` in the zone
(1970-01-01 was a Thursday, hence the `+ 4` in the weekday). -/
def getZonedParts (t : Int) (tz : Int → Int) : ZonedParts :=
  let L := t + tz t
  { year := (civilFromDays (L / 1440)).year
    month := (civilFromDays (L / 1440)).month
    day := (civilFromDays (L / 1440)).day
    hour := L / 60 % 24
    minute := L % 60
    weekday := (L / 1440 + 4) % 7 }

/-- `shiftLocalDays`: build a UTC date from the y/m/d parts, move it by
whole days with `setUTCDate`, and read the normalised parts back.
`getUTCDate`/`setUTCDate` act on the ECMA-262 normalised date, hence the
`civilFromDays`/`jsMakeDay` round trip. -/
def shiftLocalDays (p : ZonedParts) (deltaDays : Int) : ZonedParts :=
  let z := jsMakeDay p.year (p.month - 1) p.day
  let c := civilFromDays z
  let c2 := civilFromDays (jsMakeDay c.year (c.month - 1) (c.day + deltaDays))
  { p with year := c2.year, month := c2.month, day := c2.day }

/-- `shiftLocalMonths` via `setUTCMonth`. -/
def shiftLocalMonths (p : ZonedParts) (deltaMonths : Int) : ZonedParts :=
  let z := jsMakeDay p.year (p.month - 1) p.day
  let c := civilFromDays z
  let c2 := civilFromDays (jsMakeDay c.year (c.month - 1 + deltaMonths) c.day)
  { p with year := c2.year, month := c2.month, day := c2.day }

/-- `shiftLocalYears` via `setUTCFullYear`. -/
def shiftLocalYears (p : ZonedParts) (deltaYears : Int) : ZonedParts :=
  let z := jsMakeDay p.year (p.month - 1) p.day
  let c := civilFromDays z
  let c2 := civilFromDays (jsMakeDay (c.year + deltaYears) (c.month - 1) c.day)
  { p with year := c2.year, month := c2.month, day := c2.day }

/-- `shiftLocalHours` via `setUTCHours` on the full timestamp (`t2` is
`MakeDate(Day(t), MakeTime(HourFromTime(t) + delta, MinFromTime(t)))`). -/
def shiftLocalHours (p : ZonedParts) (deltaHours : Int) : ZonedParts :=
  let t := 1440 * jsMakeDay p.year (p.month - 1) p.day + 60 * p.hour + p.minute
  let t2 := 1440 * (t / 1440) + 60 * (t / 60 % 24 + deltaHours) + t % 60
  let c := civilFromDays (t2 / 1440)
  { year := c.year, month := c.month, day := c.day,
    hour := t2 / 60 % 24, minute := t2 % 60, weekday := p.weekday }

/-- `resolveSlotEndParts`: snap `now`'s zoned parts to the most recent
schedule boundary at or before `now` (local terms). -/
def resolveSlotEndParts (now : Int) (s : SlotSchedule) (tz : Int → Int) : ZonedParts :=
  let parts := getZonedParts now tz
  let minute := s.minute.getD 0
  let hour := s.hour.getD 0
  match s.type with
  | .hourly =>
    let slotParts := { parts with minute := minute }
    if parts.minute < minute then shiftLocalHours slotParts (-1) else slotParts
  | .daily =>
    let slotParts := { parts with hour := hour, minute := minute }
    if parts.hour < hour ∨ (parts.hour = hour ∧ parts.minute < minute) then
      shiftLocalDays slotParts (-1)
    else slotParts
  | .weekly =>
    let weekday := s.weekday.getD 0
    let slotParts := { parts with hour := hour, minute := minute }
    let delta0 := parts.weekday - weekday
    let delta1 := if delta0 < 0 then delta0 + 7 else delta0
    let delta := if delta1 = 0 ∧
        (parts.hour < hour ∨ (parts.hour = hour ∧ parts.minute < minute)) then
        (7 : Int) else delta1
    shiftLocalDays slotParts (-delta)
  | .monthly =>
    let dayOfMonth := s.dayOfMonth.getD 1
    let slotParts := { parts with day := dayOfMonth, hour := hour, minute := minute }
    if parts.day < dayOfMonth ∨ (parts.day = dayOfMonth ∧
        (parts.hour < hour ∨ (parts.hour = hour ∧ parts.minute < minute))) then
      shiftLocalMonths slotParts (-1)
    else slotParts
  | .yearly =>
    let month := s.month.getD 1
    let dayOfMonth := s.dayOfMonth.getD 1
    let slotParts := { parts with month := month, day := dayOfMonth,
                                  hour := hour, minute := minute }
    if parts.month < month ∨ (parts.month = month ∧
        (parts.day < dayOfMonth ∨ (parts.day = dayOfMonth ∧
          (parts.hour < hour ∨ (parts.hour = hour ∧ parts.minute < minute))))) then
      shiftLocalYears slotParts (-1)
    else slotParts

/-- `shiftSlotEnd`: move a slot boundary by `delta` schedule units. -/
def shiftSlotEnd (parts : ZonedParts) (s : SlotSchedule) (delta : Int) : ZonedParts :=
  match s.type with
  | .hourly => shiftLocalHours parts delta
  | .daily => shiftLocalDays parts delta
  | .weekly => shiftLocalDays parts (delta * 7)
  | .monthly => shiftLocalMonths parts delta
  | .yearly => shiftLocalYears parts delta

/-- One decimal digit. -/
def digit (n : Int) : Char := Nat.digitChar (n.toNat % 10)

/-- Two-digit zero-padded field of `toISOString`. -/
def pad2 (n : Int) : String := String.mk [digit (n / 10), digit n]

/-- Four-digit zero-padded year field of `toISOString`. -/
def pad4 (n : Int) : String :=
  String.mk [digit (n / 1000), digit (n / 100), digit (n / 10), digit n]

/-- `formatSlotKey`: `YYYY-MM-DDTHH-MMZ` sliced out of the ISO string of a
UTC instant. -/
def formatSlotKey (t : Int) : String :=
  pad4 (civilFromDays (t / 1440)).year ++ "-" ++
  pad2 (civilFromDays (t / 1440)).month ++ "-" ++
  pad2 (civilFromDays (t / 1440)).day ++ "T" ++
  pad2 (t / 60 % 24) ++ "-" ++ pad2 (t % 60) ++ "Z"

/-- `buildSlotWindow`: the slot ending at `slotEnd`, one schedule unit
wide. -/
def buildSlotWindow (slotEnd : ZonedParts) (s : SlotSchedule) (tz : Int → Int) : SlotWindow :=
  let slotStart := shiftSlotEnd slotEnd s (-1)
  let endUtc := zonedTimeToUtc slotEnd tz
  let startUtc := zonedTimeToUtc slotStart tz
  { slotKey := formatSlotKey endUtc
    slotType := s.type
    scheduledAt := endUtc
    wstart := startUtc
    wend := endUtc }

/-- The successive `cursor` values of the `listSlots` loop. -/
def slotCursors (p : ZonedParts) (s : SlotSchedule) : Nat → List ZonedParts
  | 0 => []
  | n + 1 => p :: slotCursors (shiftSlotEnd p s (-1)) s n

/-- `listSlots`: `max(1, backfillSlots)` slots walking backward from the
current slot. -/
def listSlots (now : Int) (s : SlotSchedule) (tz : Int → Int) (backfillSlots : Int) :
    List SlotWindow :=
  (slotCursors (resolveSlotEndParts now s tz) s (max 1 backfillSlots).toNat).map
    (fun c => buildSlotWindow c s tz)

/-- The UTC time zone: offset 0 everywhere. -/
def tzUTC : Int → Int := fun _ => 0

/-- The daily `{hour: 0, minute: 0}` schedule of claim C6. -/
def dailyMidnight : SlotSchedule :=
  ⟨.daily, some 0, some 0, none, none, none⟩

/-- C6: for a daily `{hour: 0, minute: 0}` schedule in UTC with
`now = 2024-11-03T10:00:00Z`, `resolveSlotEndParts` followed by
`buildSlotWindow` yields the slot with key `2024-11-03T00-00Z`,
`scheduledAt = 2024-11-03T00:00:00Z` and window
`2024-11-02T00:00:00Z .. 2024-11-03T00:00:00Z`. -/
theorem C6_daily_slot :
    buildSlotWindow
        (resolveSlotEndParts (utcMinutes 2024 11 3 10 0) dailyMidnight tzUTC)
        dailyMidnight tzUTC =
      { slotKey := "2024-11-03T00-00Z"
        slotType := .daily
        scheduledAt := utcMinutes 2024 11 3 0 0
        wstart := utcMinutes 2024 11 2 0 0
        wend := utcMinutes 2024 11 3 0 0 } := by
  decide
/-- `localMinutes` of an hour shift moves by exactly `60 * delta` minutes. -/
theorem localMinutes_shiftLocalHours (p : ZonedParts) (delta : Int) :
    localMinutes (shiftLocalHours p delta) = localMinutes p + 60 * delta := by
  simp only [shiftLocalHours, localMinutes]
  rw [jsMakeDay_civilFromDays]
  omega

/-- `localMinutes` of a day shift moves by exactly `1440 * delta` minutes. -/
theorem localMinutes_shiftLocalDays (p : ZonedParts) (delta : Int) :
    localMinutes (shiftLocalDays p delta) = localMinutes p + 1440 * delta := by
  simp only [shiftLocalDays, localMinutes]
  have h1 : jsMakeDay (civilFromDays (jsMakeDay p.year (p.month - 1) p.day)).year
      ((civilFromDays (jsMakeDay p.year (p.month - 1) p.day)).month - 1)
      ((civilFromDays (jsMakeDay p.year (p.month - 1) p.day)).day + delta) =
      jsMakeDay p.year (p.month - 1) p.day + delta := by
    have h2 := jsMakeDay_civilFromDays (jsMakeDay p.year (p.month - 1) p.day)
    simp only [jsMakeDay] at h2 ⊢
    omega
  rw [h1, jsMakeDay_civilFromDays]
  omega

/-- The month produced by `civilFromDays` lies in `1..12`. -/
theorem civilFromDays_month_bounds (z : Int) :
    1 ≤ (civilFromDays z).month ∧ (civilFromDays z).month ≤ 12 := by
  simp only [civilFromDays]
  set z' := z + 719468 with hz'def
  set era := z' / 146097 with heradef
  set doe := z' - era * 146097 with hdoedef
  set q1 := doe / 1460 with hq1def
  set q2 := doe / 36524 with hq2def
  set q3 := doe / 146096 with hq3def
  set n := doe - q1 + q2 - q3 with hndef
  set yoe := n / 365 with hyoedef
  set yq4 := yoe / 4 with hyq4def
  set yq100 := yoe / 100 with hyq100def
  set doy := doe - (365 * yoe + yq4 - yq100) with hdoydef
  set mp := (5 * doy + 2) / 153 with hmpdef
  set u := (153 * mp + 2) / 5 with hudef
  set d := doy - u + 1 with hddef
  set msh := (if mp < 10 then (3 : Int) else -9) with hmshdef
  set m := mp + msh with hmdef
  have hb := hinnant_era_bounds doe q1 (doe % 1460) q2 (doe % 36524) q3 (doe % 146096)
    n yoe (n % 365) yq4 (yoe % 4) yq100 (yoe % 100)
    (by omega) (by omega)
    (by omega) (by omega) (by omega)
    (by omega) (by omega) (by omega)
    (by omega) (by omega) (by omega)
    hndef
    (by omega) (by omega) (by omega)
    (by omega) (by omega) (by omega)
    (by omega) (by omega) (by omega)
  by_cases h : mp < 10
  · have hmsh : msh = 3 := by rw [hmshdef, if_pos h]
    constructor <;> omega
  · have hmsh : msh = -9 := by rw [hmshdef, if_neg h]
    constructor <;> omega

/-- Every month has at least 28 days. -/
theorem daysInMonth_ge (y m : Int) : 28 ≤ daysInMonth y m := by
  simp only [daysInMonth]
  split_ifs <;> omega

/-- Decoding the day number of a valid civil date recovers the date. -/
theorem civilFromDays_jsMakeDay (y m d : Int) (h1 : 1 ≤ m) (h2 : m ≤ 12)
    (hd1 : 1 ≤ d) (hd2 : d ≤ daysInMonth y m) :
    civilFromDays (jsMakeDay y (m - 1) d) = ⟨y, m, d⟩ := by
  have hk1 : (y * 12 + (m - 1)) / 12 = y := by omega
  have hk2 : (y * 12 + (m - 1)) % 12 + 1 = m := by omega
  have h := civilFromDays_monthStartLin (y * 12 + (m - 1)) d hd1 (by rw [hk1, hk2]; exact hd2)
  rw [show jsMakeDay y (m - 1) d = monthStartLin (y * 12 + (m - 1)) + d - 1 from rfl, h]
  simp only [Civil.mk.injEq]
  exact ⟨hk1, hk2, trivial⟩

/-- On a valid date with day ≤ 28, `shiftLocalMonths _ (-1)` moves exactly
one calendar month back, keeping the day and time fields. -/
theorem shiftLocalMonths_back (p : ZonedParts) (h1 : 1 ≤ p.month) (h2 : p.month ≤ 12)
    (h3 : 1 ≤ p.day) (h4 : p.day ≤ 28) :
    shiftLocalMonths p (-1) =
      { year := (p.year * 12 + (p.month - 1 + -1)) / 12
        month := (p.year * 12 + (p.month - 1 + -1)) % 12 + 1
        day := p.day, hour := p.hour, minute := p.minute, weekday := p.weekday } := by
  have hle : p.day ≤ daysInMonth p.year p.month := le_trans h4 (daysInMonth_ge _ _)
  simp only [shiftLocalMonths, civilFromDays_jsMakeDay p.year p.month p.day h1 h2 h3 hle]
  rw [show jsMakeDay p.year (p.month - 1 + -1) p.day =
        monthStartLin (p.year * 12 + (p.month - 1 + -1)) + p.day - 1 from rfl]
  rw [civilFromDays_monthStartLin (p.year * 12 + (p.month - 1 + -1)) p.day h3
        (le_trans h4 (daysInMonth_ge _ _))]

/-- On a valid date with day ≤ 28, `shiftLocalYears _ (-1)` moves exactly
one calendar year back, keeping month, day and time fields. -/
theorem shiftLocalYears_back (p : ZonedParts) (h1 : 1 ≤ p.month) (h2 : p.month ≤ 12)
    (h3 : 1 ≤ p.day) (h4 : p.day ≤ 28) :
    shiftLocalYears p (-1) =
      { year := p.year + -1, month := p.month, day := p.day,
        hour := p.hour, minute := p.minute, weekday := p.weekday } := by
  have hle : p.day ≤ daysInMonth p.year p.month := le_trans h4 (daysInMonth_ge _ _)
  have hle2 : p.day ≤ daysInMonth (p.year + -1) p.month := le_trans h4 (daysInMonth_ge _ _)
  simp only [shiftLocalYears, civilFromDays_jsMakeDay p.year p.month p.day h1 h2 h3 hle]
  simp only [civilFromDays_jsMakeDay (p.year + -1) p.month p.day h1 h2 h3 hle2]

/-- A slot cursor with in-range month and a day that exists in every month. -/
def validCursor (p : ZonedParts) : Prop :=
  1 ≤ p.month ∧ p.month ≤ 12 ∧ 1 ≤ p.day ∧ p.day ≤ 28

/-- One schedule unit backward, in local calendar terms. -/
def oneUnitBack (ty : SlotType) (p q : ZonedParts) : Prop :=
  match ty with
  | .hourly => localMinutes q = localMinutes p - 60
  | .daily => localMinutes q = localMinutes p - 1440
  | .weekly => localMinutes q = localMinutes p - 10080
  | .monthly => q.year * 12 + q.month = p.year * 12 + p.month - 1 ∧
      q.day = p.day ∧ q.hour = p.hour ∧ q.minute = p.minute
  | .yearly => q.year = p.year - 1 ∧ q.month = p.month ∧ q.day = p.day ∧
      q.hour = p.hour ∧ q.minute = p.minute

/-- Stepping one unit back preserves cursor validity (where needed), is one
unit back in local calendar terms, and strictly decreases local time. -/
theorem shiftSlotEnd_step (s : SlotSchedule) (p : ZonedParts)
    (hv : s.type = .monthly ∨ s.type = .yearly → validCursor p) :
    (s.type = .monthly ∨ s.type = .yearly → validCursor (shiftSlotEnd p s (-1))) ∧
    oneUnitBack s.type p (shiftSlotEnd p s (-1)) ∧
    localMinutes (shiftSlotEnd p s (-1)) < localMinutes p := by
  cases hty : s.type with
  | hourly =>
    simp only [shiftSlotEnd, hty, oneUnitBack, localMinutes_shiftLocalHours]
    exact ⟨fun h => by rcases h with h | h <;> exact absurd h (by decide), by omega, by omega⟩
  | daily =>
    simp only [shiftSlotEnd, hty, oneUnitBack, localMinutes_shiftLocalDays]
    exact ⟨fun h => by rcases h with h | h <;> exact absurd h (by decide), by omega, by omega⟩
  | weekly =>
    simp only [shiftSlotEnd, hty, oneUnitBack, localMinutes_shiftLocalDays]
    exact ⟨fun h => by rcases h with h | h <;> exact absurd h (by decide), by omega, by omega⟩
  | monthly =>
    obtain ⟨h1, h2, h3, h4⟩ := hv (Or.inl hty)
    simp only [shiftSlotEnd, hty]
    rw [shiftLocalMonths_back p h1 h2 h3 h4]
    refine ⟨fun _ => ⟨by simp; omega, by simp; omega, by simp; omega, by simp; omega⟩,
      ⟨by simp; omega, by simp, by simp, by simp⟩, ?_⟩
    simp only [localMinutes, jsMakeDay]
    have e1 : (p.year * 12 + (p.month - 1 + -1)) / 12 * 12 +
        ((p.year * 12 + (p.month - 1 + -1)) % 12 + 1 - 1) =
        p.year * 12 + (p.month - 1 + -1) := by omega
    have e2 : p.year * 12 + (p.month - 1) = p.year * 12 + (p.month - 1 + -1) + 1 := by ring
    rw [e1, e2]
    have h := monthStartLin_lt_succ (p.year * 12 + (p.month - 1 + -1))
    omega
  | yearly =>
    obtain ⟨h1, h2, h3, h4⟩ := hv (Or.inr hty)
    simp only [shiftSlotEnd, hty]
    rw [shiftLocalYears_back p h1 h2 h3 h4]
    refine ⟨fun _ => ⟨by simp; omega, by simp; omega, by simp; omega, by simp; omega⟩,
      ⟨by simp; omega, by simp, by simp, by simp, by simp⟩, ?_⟩
    simp only [localMinutes, jsMakeDay]
    have h := monthStartLin_strictMono
      (show (p.year + -1) * 12 + (p.month - 1) < p.year * 12 + (p.month - 1) by omega)
    omega

/-- Chains along the `listSlots` cursor walk, from a step invariant. -/
theorem slotCursors_chain (s : SlotSchedule) (R : ZonedParts → ZonedParts → Prop)
    (Inv : ZonedParts → Prop)
    (hstep : ∀ p, Inv p → Inv (shiftSlotEnd p s (-1)) ∧ R p (shiftSlotEnd p s (-1))) :
    ∀ (n : Nat) (p : ZonedParts), Inv p → List.Chain' R (slotCursors p s n) := by
  intro n
  induction n with
  | zero => intro p _; simp [slotCursors]
  | succ m ih =>
    intro p hp
    rw [show slotCursors p s (m + 1) = p :: slotCursors (shiftSlotEnd p s (-1)) s m from rfl]
    rw [List.chain'_cons']
    refine ⟨?_, ih _ (hstep p hp).1⟩
    intro b hb
    cases m with
    | zero => simp [slotCursors] at hb
    | succ m' =>
      simp only [slotCursors, List.head?_cons, Option.mem_def, Option.some.injEq] at hb
      rw [← hb]
      exact (hstep p hp).2

theorem slotCursors_length (s : SlotSchedule) :
    ∀ (n : Nat) (p : ZonedParts), (slotCursors p s n).length = n := by
  intro n
  induction n with
  | zero => intro p; simp [slotCursors]
  | succ m ih => intro p; simp [slotCursors, ih]

/-- The current-slot cursor is valid whenever the schedule constraints of
the amended C7 hold. -/
theorem resolveSlotEndParts_validCursor (now : Int) (s : SlotSchedule) (tz : Int → Int)
    (hmon : s.type = .monthly → 1 ≤ s.dayOfMonth.getD 1 ∧ s.dayOfMonth.getD 1 ≤ 28)
    (hyr : s.type = .yearly → 1 ≤ s.dayOfMonth.getD 1 ∧ s.dayOfMonth.getD 1 ≤ 28 ∧
      1 ≤ s.month.getD 1 ∧ s.month.getD 1 ≤ 12)
    (hty : s.type = .monthly ∨ s.type = .yearly) :
    validCursor (resolveSlotEndParts now s tz) := by
  obtain hmb := civilFromDays_month_bounds ((now + tz now) / 1440)
  cases hty with
  | inl h =>
    obtain ⟨hd1, hd2⟩ := hmon h
    simp only [resolveSlotEndParts, h, getZonedParts]
    split
    · rw [shiftLocalMonths_back _ (by simpa using hmb.1) (by simpa using hmb.2)
        (by simpa using hd1) (by simpa using hd2)]
      exact ⟨by simp; omega, by simp; omega, by simpa using hd1, by simpa using hd2⟩
    · exact ⟨by simpa using hmb.1, by simpa using hmb.2, by simpa using hd1, by simpa using hd2⟩
  | inr h =>
    obtain ⟨hd1, hd2, hm1, hm2⟩ := hyr h
    simp only [resolveSlotEndParts, h, getZonedParts]
    split
    · rw [shiftLocalYears_back _ (by simpa using hm1) (by simpa using hm2)
        (by simpa using hd1) (by simpa using hd2)]
      exact ⟨by simpa using hm1, by simpa using hm2, by simpa using hd1, by simpa using hd2⟩
    · exact ⟨by simpa using hm1, by simpa using hm2, by simpa using hd1, by simpa using hd2⟩

/-- A real-world time zone with a DST transition: America/New_York around
2024-03-10T07:00Z (EST, −300 min, before; EDT, −240 min, after), as sampled
by `getOffsetMinutes`. -/
def tzNY : Int → Int := fun t => if t < utcMinutes 2024 3 10 7 0 then -300 else -240

/-- An hourly `{minute: 0}` schedule. -/
def hourlyOnTheHour : SlotSchedule := ⟨.hourly, some 0, none, none, none, none⟩

/-- C7 counterexample: across the 2024 US spring-forward transition, the
two slots returned for an hourly schedule in a New-York-style zone have
equal `scheduledAt` instants, so `scheduledAt` is not strictly decreasing
and consecutive slots are not one hour apart. -/
theorem C7_counterexample :
    (listSlots (utcMinutes 2024 3 10 11 30) hourlyOnTheHour tzNY 2).map
        SlotWindow.scheduledAt =
      [utcMinutes 2024 3 10 11 0, utcMinutes 2024 3 10 11 0] := by
  decide

/-- C7 amended: in a fixed-offset time zone, and with schedules whose
day-of-month (and, for yearly schedules, month) fields always exist in the
target month, `listSlots` returns exactly `max 1 backfillSlots` slots,
headed by the current slot, whose cursor walk steps exactly one schedule
unit back in local calendar terms each time and whose `scheduledAt`
instants are strictly decreasing. -/
theorem C7_amended (now off N : Int) (tz : Int → Int) (s : SlotSchedule)
    (htz : ∀ t, tz t = off)
    (hmon : s.type = .monthly → 1 ≤ s.dayOfMonth.getD 1 ∧ s.dayOfMonth.getD 1 ≤ 28)
    (hyr : s.type = .yearly → 1 ≤ s.dayOfMonth.getD 1 ∧ s.dayOfMonth.getD 1 ≤ 28 ∧
      1 ≤ s.month.getD 1 ∧ s.month.getD 1 ≤ 12) :
    (listSlots now s tz N).length = (max 1 N).toNat ∧
    (listSlots now s tz N).head? =
      some (buildSlotWindow (resolveSlotEndParts now s tz) s tz) ∧
    List.Chain' (oneUnitBack s.type)
      (slotCursors (resolveSlotEndParts now s tz) s (max 1 N).toNat) ∧
    ((listSlots now s tz N).map SlotWindow.scheduledAt).Pairwise (· > ·) := by
  have hp0 : (s.type = .monthly ∨ s.type = .yearly →
      validCursor (resolveSlotEndParts now s tz)) := fun h =>
    resolveSlotEndParts_validCursor now s tz hmon hyr h
  have hchain := slotCursors_chain s
    (fun p q => oneUnitBack s.type p q ∧ localMinutes q < localMinutes p)
    (fun p => s.type = .monthly ∨ s.type = .yearly → validCursor p)
    (fun p hp => by
      have h := shiftSlotEnd_step s p hp
      exact ⟨h.1, h.2.1, h.2.2⟩)
    (max 1 N).toNat (resolveSlotEndParts now s tz) hp0
  refine ⟨?_, ?_, ?_, ?_⟩
  · simp [listSlots, slotCursors_length]
  · simp only [listSlots]
    rw [show (max 1 N).toNat = ((max 1 N).toNat - 1) + 1 by omega]
    rfl
  · exact hchain.imp (fun _ _ h => h.1)
  · have hmono : List.Chain' (· > ·)
        ((listSlots now s tz N).map SlotWindow.scheduledAt) := by
      simp only [listSlots, List.map_map]
      rw [List.chain'_map]
      refine hchain.imp (fun p q h => ?_)
      show zonedTimeToUtc p tz > zonedTimeToUtc q tz
      simp only [zonedTimeToUtc, htz]
      omega
    exact List.chain'_iff_pairwise.mp hmono

/-- Witness for the amended C7 at a concrete daily schedule in UTC. -/
theorem C7_amended_witness :
    (listSlots (utcMinutes 2024 11 3 10 0) dailyMidnight tzUTC 3).length =
        (max 1 (3 : Int)).toNat ∧
    (listSlots (utcMinutes 2024 11 3 10 0) dailyMidnight tzUTC 3).head? =
      some (buildSlotWindow
        (resolveSlotEndParts (utcMinutes 2024 11 3 10 0) dailyMidnight tzUTC)
        dailyMidnight tzUTC) ∧
    List.Chain' (oneUnitBack dailyMidnight.type)
      (slotCursors (resolveSlotEndParts (utcMinutes 2024 11 3 10 0) dailyMidnight tzUTC)
        dailyMidnight (max 1 (3 : Int)).toNat) ∧
    ((listSlots (utcMinutes 2024 11 3 10 0) dailyMidnight tzUTC 3).map
        SlotWindow.scheduledAt).Pairwise (· > ·) :=
  C7_amended (utcMinutes 2024 11 3 10 0) 0 3 tzUTC dailyMidnight (fun _ => rfl)
    (fun h => absurd h (by decide)) (fun h => absurd h (by decide))

/-! ## Storage model

Stored bodies are JSON strings in the source; they are modelled up to the
JSON round trip: one constructor per record shape the program serialises,
plus `corrupt` for strings on which `JSON.parse` throws.  String
comparisons (`<`, `localeCompare`, the default `Array.sort`) are UTF-16
code-unit comparisons in the source; for the ASCII keys the program builds
they coincide with the code-point order `lexLt`/`lexLe` below. -/

/-- Strict code-point order on character lists (JS string `<`). -/
def lexLt : List Char → List Char → Bool
  | [], [] => false
  | [], _ :: _ => true
  | _ :: _, [] => false
  | a :: as, b :: bs =>
    if a.toNat < b.toNat then true
    else if b.toNat < a.toNat then false
    else lexLt as bs

/-- Reflexive code-point order on character lists. -/
def lexLe : List Char → List Char → Bool
  | [], _ => true
  | _ :: _, [] => false
  | a :: as, b :: bs =>
    if a.toNat < b.toNat then true
    else if b.toNat < a.toNat then false
    else lexLe as bs

def strLt (a b : String) : Bool := lexLt a.data b.data

def strLe (a b : String) : Bool := lexLe a.data b.data

theorem lexLe_refl (a : List Char) : lexLe a a = true := by
  induction a with
  | nil => rfl
  | cons x xs ih => simp [lexLe, ih]

theorem lexLt_imp_le (a b : List Char) (h : lexLt a b = true) : lexLe a b = true := by
  induction a generalizing b with
  | nil => cases b <;> rfl
  | cons x xs ih =>
    cases b with
    | nil => exact absurd h (by simp [lexLt])
    | cons y ys =>
      simp only [lexLt] at h
      simp only [lexLe]
      by_cases h1 : x.toNat < y.toNat
      · rw [if_pos h1]
      · rw [if_neg h1] at h ⊢
        by_cases h2 : y.toNat < x.toNat
        · rw [if_pos h2] at h; exact absurd h (by simp)
        · rw [if_neg h2] at h ⊢; exact ih ys h

theorem lexLt_false_le (a b : List Char) (h : lexLt a b = false) : lexLe b a = true := by
  induction a generalizing b with
  | nil => cases b with
    | nil => rfl
    | cons y ys => exact absurd h (by simp [lexLt])
  | cons x xs ih =>
    cases b with
    | nil => rfl
    | cons y ys =>
      simp only [lexLt] at h
      simp only [lexLe]
      by_cases h1 : x.toNat < y.toNat
      · rw [if_pos h1] at h; exact absurd h (by simp)
      · rw [if_neg h1] at h
        by_cases h2 : y.toNat < x.toNat
        · rw [if_pos h2]
        · rw [if_neg h2] at h
          rw [if_neg h2, if_neg h1]
          exact ih ys h

theorem lexLe_total (a b : List Char) : lexLe a b = true ∨ lexLe b a = true := by
  induction a generalizing b with
  | nil => exact Or.inl rfl
  | cons x xs ih =>
    cases b with
    | nil => exact Or.inr rfl
    | cons y ys =>
      simp only [lexLe]
      by_cases h1 : x.toNat < y.toNat
      · exact Or.inl (by rw [if_pos h1])
      · by_cases h2 : y.toNat < x.toNat
        · exact Or.inr (by rw [if_pos h2])
        · rcases ih ys with h | h
          · exact Or.inl (by rw [if_neg h1, if_neg h2]; exact h)
          · exact Or.inr (by rw [if_neg h2, if_neg h1]; exact h)

theorem lexLe_trans (a b c : List Char) (h1 : lexLe a b = true) (h2 : lexLe b c = true) :
    lexLe a c = true := by
  induction a generalizing b c with
  | nil => rfl
  | cons x xs ih =>
    cases b with
    | nil => exact absurd h1 (by simp [lexLe])
    | cons y ys =>
      cases c with
      | nil => exact absurd h2 (by simp [lexLe])
      | cons z zs =>
        simp only [lexLe] at h1 h2 ⊢
        by_cases hxy : x.toNat < y.toNat
        · by_cases hyz : y.toNat < z.toNat
          · rw [if_pos (by omega : x.toNat < z.toNat)]
          · rw [if_neg hyz] at h2
            by_cases hzy : z.toNat < y.toNat
            · rw [if_pos hzy] at h2; exact absurd h2 (by simp)
            · rw [if_pos (by omega : x.toNat < z.toNat)]
        · rw [if_neg hxy] at h1
          by_cases hyx : y.toNat < x.toNat
          · rw [if_pos hyx] at h1; exact absurd h1 (by simp)
          · rw [if_neg hyx] at h1
            by_cases hyz : y.toNat < z.toNat
            · rw [if_pos (by omega : x.toNat < z.toNat)]
            · rw [if_neg hyz] at h2
              by_cases hzy : z.toNat < y.toNat
              · rw [if_pos hzy] at h2; exact absurd h2 (by simp)
              · rw [if_neg hzy] at h2
                rw [if_neg (by omega : ¬ x.toNat < z.toNat),
                    if_neg (by omega : ¬ z.toNat < x.toNat)]
                exact ih ys zs h1 h2

theorem strLe_refl (a : String) : strLe a a = true := lexLe_refl a.data

theorem strLt_imp_le (a b : String) (h : strLt a b = true) : strLe a b = true :=
  lexLt_imp_le a.data b.data h

theorem strLt_false_le (a b : String) (h : strLt a b = false) : strLe b a = true :=
  lexLt_false_le a.data b.data h

theorem strLe_trans (a b c : String) (h1 : strLe a b = true) (h2 : strLe b c = true) :
    strLe a c = true := lexLe_trans a.data b.data c.data h1 h2

theorem strLe_total (a b : String) : strLe a b = true ∨ strLe b a = true :=
  lexLe_total a.data b.data

/-- An entry of a monthly index file (`IndexItem`); the fields the index
maintenance code reads, the remaining payload fields ride along unread and
are omitted. `windowStart` is `item.window.start`. -/
structure IndexItem where
  owner : String
  ownerType : String
  jobId : String
  slotKey : String
  windowStart : String
  status : String
  manifestKey : String
deriving DecidableEq

/-- A stored body, up to the JSON round trip. -/
inductive Body where
  | indexFile (owner ownerType jobId period : String) (items : List IndexItem)
  | latestFile (owner ownerType jobId : String) (latest : IndexItem)
  | manifestFile (status slotKey : String)
  | summaryFile (status slotKey : String)
  | registryFile
  | outputFile (text : String)
  | corrupt (raw : String)
deriving DecidableEq

/-- The backing object store: an association list from keys to bodies with
at most one live binding per key (`storPut` replaces). -/
def Store := List (String × Body)
deriving instance DecidableEq for Store

def storDel (st : Store) (k : String) : Store :=
  st.filter (fun kv => !(kv.1 == k))

def storPut (st : Store) (k : String) (b : Body) : Store :=
  (k, b) :: storDel st k

def storGet (st : Store) (k : String) : Option Body :=
  (st.find? (fun kv => kv.1 == k)).map (fun kv => kv.2)

def storExists (st : Store) (k : String) : Bool :=
  (storGet st k).isSome

def strHasPre (pre k : String) : Bool := pre.data.isPrefixOf k.data

def storList (st : Store) (pre : String) : List String :=
  (st.map (fun kv => kv.1)).filter (fun k => strHasPre pre k)

/-- The storage interface (`StorageClient`), generic in the state so the
direct client and the buffered client share the pipeline code. -/
structure StorClient (σ : Type) where
  get : σ → String → Option Body
  put : σ → String → Body → σ
  del : σ → String → σ
  existsKey : σ → String → Bool
  list : σ → String → List String

def directClient : StorClient Store :=
  { get := storGet, put := storPut, del := storDel,
    existsKey := storExists, list := storList }

/-- The pending buffer of `createBufferedStorage`: the `writes` map and the
`deletes` set. -/
structure BufState where
  writes : List (String × Body)
  deletes : List String
deriving DecidableEq

/-- The buffered `StorageClient` over a base store
(`createBufferedStorage(base).storage`); the base is a fixed parameter, so
no buffered operation can modify it. -/
def bufClientOver (base : Store) : StorClient BufState :=
  { get := fun bs k =>
      match (bs.writes.find? (fun kv => kv.1 == k)).map (fun kv => kv.2) with
      | some b => some b
      | none => if bs.deletes.contains k then none else storGet base k
    put := fun bs k b =>
      ⟨(k, b) :: bs.writes.filter (fun kv => !(kv.1 == k)),
        bs.deletes.filter (fun d => !(d == k))⟩
    del := fun bs k =>
      ⟨bs.writes.filter (fun kv => !(kv.1 == k)),
        k :: bs.deletes.filter (fun d => !(d == k))⟩
    existsKey := fun bs k =>
      if bs.writes.any (fun kv => kv.1 == k) then true
      else if bs.deletes.contains k then false
      else storExists base k
    list := fun bs pre =>
      List.insertionSort (fun a b : String => strLe a b = true)
        (((storList base pre ++
            (bs.writes.map (fun kv => kv.1)).filter (fun k => strHasPre pre k)).eraseDups).filter
          (fun k => !(bs.deletes.contains k))) }

/-- `commit()`: apply the deletes, then the writes, to the base store. -/
def bufCommit (base : Store) (bs : BufState) : Store :=
  let afterDel := bs.deletes.foldl (fun s k => storDel s k) base
  bs.writes.foldl (fun s kv => storPut s kv.1 kv.2) afterDel

/-- The in-place merge step of `updateIndex` (dedup on `manifestKey`, else
append and stable-sort ascending by `window.start`). -/
def updateIndexItems (items : List IndexItem) (item : IndexItem) : List IndexItem :=
  if items.any (fun e => e.manifestKey == item.manifestKey) then items
  else List.insertionSort (fun a b => strLe a.windowStart b.windowStart = true)
    (items ++ [item])

/-- `updateIndex` (`manifest.ts`): read-parse-merge-write of a monthly
index file.  `JSON.parse` of a corrupt existing body throws, modelled as
`Except.error`; a parseable body without an `items` array contributes `[]`
(`parsed.items ?? []`). -/
def updateIndex {σ : Type} (C : StorClient σ) (st : σ) (key owner ownerType period : String)
    (item : IndexItem) (jobId : String) : Except String σ :=
  match C.get st key with
  | some (Body.corrupt _) => Except.error "SyntaxError: Unexpected token in JSON"
  | some (Body.indexFile _ _ _ _ its) =>
      Except.ok (C.put st key
        (Body.indexFile owner ownerType jobId period (updateIndexItems its item)))
  | some _ =>
      Except.ok (C.put st key
        (Body.indexFile owner ownerType jobId period (updateIndexItems [] item)))
  | none =>
      Except.ok (C.put st key
        (Body.indexFile owner ownerType jobId period (updateIndexItems [] item)))

/-- `writeLatest`: unconditionally overwrite the latest pointer. -/
def writeLatest {σ : Type} (C : StorClient σ) (st : σ) (key owner ownerType : String)
    (item : IndexItem) (jobId : String) : σ :=
  C.put st key (Body.latestFile owner ownerType jobId item)

def isDigitChar (c : Char) : Bool := Nat.ble 48 c.toNat && Nat.ble c.toNat 57

/-- The `/\x7b4 digits\x7d-\x7b2 digits\x7d.json$` period pattern of
`listIndexPeriods`, matched from the end of the key. -/
def periodOfKey (k : String) : Option String :=
  match k.data.reverse with
  | 'n' :: 'o' :: 's' :: 'j' :: '.' :: m2 :: m1 :: '-' :: y4 :: y3 :: y2 :: y1 :: '/' :: _ =>
    if isDigitChar y1 && isDigitChar y2 && isDigitChar y3 && isDigitChar y4 &&
        isDigitChar m1 && isDigitChar m2 then
      some (String.mk [y1, y2, y3, y4, '-', m1, m2])
    else none
  | _ => none

/-- `listIndexPeriods`: the sorted set of period keys of the monthly index
files under `indexBase`. -/
def listIndexPeriods {σ : Type} (C : StorClient σ) (st : σ) (indexBase : String) : List String :=
  List.insertionSort (fun a b : String => strLe a b = true)
    ((C.list st indexBase).filterMap periodOfKey).eraseDups

/-- `removeIndexItemBySlot`: drop the item with the given slot key from the
monthly index file, deleting the file when it empties. -/
def removeIndexItemBySlot {σ : Type} (C : StorClient σ) (st : σ) (indexKey slotKey : String) :
    Except String ((Option IndexItem × Nat) × σ) :=
  match C.get st indexKey with
  | none => Except.ok ((none, 0), st)
  | some (Body.corrupt _) => Except.error "SyntaxError: Unexpected token in JSON"
  | some (Body.indexFile o ot j p items) =>
    match items.find? (fun it => it.slotKey == slotKey) with
    | none => Except.ok ((none, items.length), st)
    | some removed =>
      let nextItems := items.filter (fun it => !(it.slotKey == slotKey))
      if nextItems.length = 0 then
        Except.ok ((some removed, nextItems.length), C.del st indexKey)
      else
        Except.ok ((some removed, nextItems.length),
          C.put st indexKey (Body.indexFile o ot j p nextItems))
  | some _ => Except.error "TypeError: file.items is undefined"

/-- The item-gathering loop of `recomputeLatest` over a period list. -/
def collectIndexItems {σ : Type} (C : StorClient σ) (st : σ) (indexBase : String) :
    List String → Except String (List IndexItem)
  | [] => Except.ok []
  | p :: ps =>
    match C.get st (indexBase ++ "/" ++ p ++ ".json") with
    | some (Body.corrupt _) => Except.error "SyntaxError: Unexpected token in JSON"
    | some (Body.indexFile _ _ _ _ its) =>
      (collectIndexItems C st indexBase ps).map (fun rest => its ++ rest)
    | _ => collectIndexItems C st indexBase ps

/-- `recomputeLatest`: union the monthly files' items and rewrite (or
delete) the latest pointer.  The `reduce` keeps the first item with the
maximal `slotKey`. -/
def recomputeLatest {σ : Type} (C : StorClient σ) (st : σ) (indexBase : String) :
    Except String (Option IndexItem × σ) :=
  match collectIndexItems C st indexBase (listIndexPeriods C st indexBase) with
  | Except.error e => Except.error e
  | Except.ok [] => Except.ok (none, C.del st (indexBase ++ "/latest.json"))
  | Except.ok (i :: rest) =>
    let latest := (i :: rest).foldl
      (fun cur it => if strLt cur.slotKey it.slotKey then it else cur) i
    Except.ok (some latest,
      writeLatest C st (indexBase ++ "/latest.json")
        latest.owner latest.ownerType latest latest.jobId)

theorem storGet_put_self (st : Store) (k : String) (b : Body) :
    storGet (storPut st k b) k = some b := by
  simp [storGet, storPut, List.find?_cons_of_pos]

theorem find?_key_filter (ws : List (String × Body)) (k : String) :
    (ws.filter (fun kv => !(kv.1 == k))).find? (fun kv => kv.1 == k) = none := by
  rw [List.find?_eq_none]
  intro x hx
  simp only [List.mem_filter, Bool.not_eq_true', beq_eq_false_iff_ne] at hx
  simp [hx.2]

theorem storGet_del_self (st : Store) (k : String) :
    storGet (storDel st k) k = none := by
  simp [storGet, storDel, find?_key_filter]

/-- Reading other keys is unaffected by a put. -/
theorem storGet_put_other (st : Store) (k q : String) (b : Body) (h : ¬(q = k)) :
    storGet (storPut st k b) q = storGet st q := by
  simp only [storGet, storPut, storDel]
  rw [List.find?_cons_of_neg _ (by simpa using Ne.symm h)]
  induction st with
  | nil => rfl
  | cons a as ih =>
    by_cases ha : a.1 = k
    · rw [List.filter_cons, if_neg (by simpa using ha)]
      rw [List.find?_cons_of_neg _ (by simp [ha]; exact Ne.symm h)]
      exact ih
    · rw [List.filter_cons, if_pos (by simpa using ha)]
      by_cases hq : a.1 = q
      · rw [List.find?_cons_of_pos _ (by simpa using hq),
            List.find?_cons_of_pos _ (by simpa using hq)]
      · rw [List.find?_cons_of_neg _ (by simpa using hq),
            List.find?_cons_of_neg _ (by simpa using hq)]
        exact ih

/-- C9: the buffered store has read-your-writes semantics over every base
store: an uncommitted `put` is visible to `get`/`exists`, an uncommitted
`delete` hides the key, whatever the base holds; the base store itself is a
fixed parameter of `bufClientOver`, so neither operation can touch it
before `commit`. -/
theorem C9_buffered_read_your_writes (base : Store) (bs : BufState) (k : String) (b : Body) :
    (bufClientOver base).get ((bufClientOver base).put bs k b) k = some b ∧
    (bufClientOver base).existsKey ((bufClientOver base).put bs k b) k = true ∧
    (bufClientOver base).get ((bufClientOver base).del bs k) k = none ∧
    (bufClientOver base).existsKey ((bufClientOver base).del bs k) k = false := by
  refine ⟨?_, ?_, ?_, ?_⟩
  · simp [bufClientOver, List.find?_cons_of_pos]
  · simp [bufClientOver]
  · simp only [bufClientOver]
    rw [find?_key_filter]
    simp
  · simp only [bufClientOver]
    have hany : (bs.writes.filter (fun kv => !(kv.1 == k))).any (fun kv => kv.1 == k) = false := by
      rw [List.any_eq_false]
      intro x hx
      simp only [List.mem_filter, Bool.not_eq_true', beq_eq_false_iff_ne] at hx
      simp [hx.2]
    simp [hany]

/-- C10: `removeIndexItemBySlot` is a no-op on a miss: an absent monthly
file yields `(null, 0)` and an untouched store; a present file with no
matching `slotKey` yields `(null, items.length)` and an untouched store. -/
theorem C10_remove_miss_noop (st : Store) (indexKey slotKey : String) :
    (storGet st indexKey = none →
      removeIndexItemBySlot directClient st indexKey slotKey = Except.ok ((none, 0), st)) ∧
    (∀ o ot j p items, storGet st indexKey = some (Body.indexFile o ot j p items) →
      (∀ it ∈ items, ¬(it.slotKey = slotKey)) →
      removeIndexItemBySlot directClient st indexKey slotKey =
        Except.ok ((none, items.length), st)) := by
  constructor
  · intro h
    simp only [removeIndexItemBySlot, directClient, h]
  · intro o ot j p items h hmiss
    simp only [removeIndexItemBySlot, directClient, h]
    have hfind : items.find? (fun it => it.slotKey == slotKey) = none := by
      rw [List.find?_eq_none]
      intro it hit
      simpa using hmiss it hit
    rw [hfind]

/-- Witness for C10 at a concrete store with one non-matching item. -/
theorem C10_witness :
    removeIndexItemBySlot directClient
        [("idx/2024-11.json",
          Body.indexFile "o" "org" "j" "2024-11"
            [⟨"o", "org", "j", "2024-11-02T00-00Z", "2024-11-01T00:00:00.000Z", "success", "mk"⟩])]
        "idx/2024-11.json" "2024-11-03T00-00Z" =
      Except.ok ((none, 1),
        [("idx/2024-11.json",
          Body.indexFile "o" "org" "j" "2024-11"
            [⟨"o", "org", "j", "2024-11-02T00-00Z", "2024-11-01T00:00:00.000Z", "success", "mk"⟩])]) :=
  (C10_remove_miss_noop _ _ _).2 "o" "org" "j" "2024-11"
    [⟨"o", "org", "j", "2024-11-02T00-00Z", "2024-11-01T00:00:00.000Z", "success", "mk"⟩]
    (by decide) (by decide)

/-- The items of the monthly index file currently stored at `key`. -/
def itemsAt (st : Store) (key : String) : Option (List IndexItem) :=
  match storGet st key with
  | some (Body.indexFile _ _ _ _ its) => some its
  | _ => none

/-- The existing-items list `updateIndex` works from (`parsed.items ?? []`
with an absent file contributing the fresh skeleton); `none` when parsing
throws. -/
def parsedItems (st : Store) (key : String) : Option (List IndexItem) :=
  match storGet st key with
  | some (Body.corrupt _) => none
  | some (Body.indexFile _ _ _ _ its) => some its
  | _ => some []

theorem updateIndexItems_hasKey (X : List IndexItem) (item : IndexItem) :
    (updateIndexItems X item).any (fun e => e.manifestKey == item.manifestKey) = true := by
  unfold updateIndexItems
  by_cases h : X.any (fun e => e.manifestKey == item.manifestKey) = true
  · rw [if_pos h]; exact h
  · rw [if_neg h, List.any_eq_true]
    exact ⟨item, (List.perm_insertionSort _ _).mem_iff.mpr (by simp), by simp⟩

theorem updateIndexItems_already (L : List IndexItem) (item : IndexItem)
    (h : L.any (fun e => e.manifestKey == item.manifestKey) = true) :
    updateIndexItems L item = L := by
  unfold updateIndexItems
  rw [if_pos h]

theorem updateIndexItems_fresh (L : List IndexItem) (item : IndexItem)
    (h : ∀ e ∈ L, ¬(e.manifestKey = item.manifestKey)) :
    (updateIndexItems L item).length = L.length + 1 ∧
    item ∈ updateIndexItems L item ∧
    List.Pairwise (fun a b => strLe a.windowStart b.windowStart = true)
      (updateIndexItems L item) := by
  have hany : L.any (fun e => e.manifestKey == item.manifestKey) = false := by
    rw [List.any_eq_false]
    intro e he
    simpa using h e he
  unfold updateIndexItems
  rw [if_neg (by rw [hany]; simp)]
  haveI : IsTotal IndexItem (fun a b => strLe a.windowStart b.windowStart = true) :=
    ⟨fun a b => strLe_total _ _⟩
  haveI : IsTrans IndexItem (fun a b => strLe a.windowStart b.windowStart = true) :=
    ⟨fun a b c => strLe_trans _ _ _⟩
  refine ⟨?_, ?_, ?_⟩
  · rw [(List.perm_insertionSort _ _).length_eq]
    simp
  · rw [(List.perm_insertionSort _ _).mem_iff]
    simp
  · exact List.sorted_insertionSort _ _

/-- C4: `updateIndex` is idempotent on `manifestKey`: a repeated call with
the same item leaves the stored items unchanged (hence the same length),
and a call whose `manifestKey` is not yet present appends the item and
leaves the file sorted ascending by `window.start`. -/
theorem C4_updateIndex_idempotent (st : Store) (key owner ownerType period jobId : String)
    (item : IndexItem) (st1 : Store)
    (h1 : updateIndex directClient st key owner ownerType period item jobId = Except.ok st1) :
    (∃ st2, updateIndex directClient st1 key owner ownerType period item jobId = Except.ok st2 ∧
      itemsAt st2 key = itemsAt st1 key) ∧
    (∀ items0, parsedItems st key = some items0 →
      (∀ e ∈ items0, ¬(e.manifestKey = item.manifestKey)) →
      ∃ its1, itemsAt st1 key = some its1 ∧
        its1.length = items0.length + 1 ∧ item ∈ its1 ∧
        List.Pairwise (fun a b => strLe a.windowStart b.windowStart = true) its1) := by
  have main : ∃ X, st1 = storPut st key
      (Body.indexFile owner ownerType jobId period (updateIndexItems X item)) ∧
      parsedItems st key = some X := by
    revert h1
    unfold updateIndex
    simp only [show directClient.get = storGet from rfl]
    unfold parsedItems
    cases hb : storGet st key with
    | none => intro h1; exact ⟨[], by simpa using (Except.ok.injEq _ _ ▸ h1).symm, rfl⟩
    | some b =>
      cases b with
      | corrupt raw => intro h1; exact absurd h1 (by simp)
      | indexFile o ot j p its =>
        intro h1
        refine ⟨its, ?_, rfl⟩
        have := h1
        simp only [Except.ok.injEq] at this
        exact this.symm
      | latestFile o ot j it => intro h1
                                refine ⟨[], ?_, rfl⟩
                                simp only [Except.ok.injEq] at h1
                                exact h1.symm
      | manifestFile a b' => intro h1
                             refine ⟨[], ?_, rfl⟩
                             simp only [Except.ok.injEq] at h1
                             exact h1.symm
      | summaryFile a b' => intro h1
                            refine ⟨[], ?_, rfl⟩
                            simp only [Except.ok.injEq] at h1
                            exact h1.symm
      | registryFile => intro h1
                        refine ⟨[], ?_, rfl⟩
                        simp only [Except.ok.injEq] at h1
                        exact h1.symm
      | outputFile t => intro h1
                        refine ⟨[], ?_, rfl⟩
                        simp only [Except.ok.injEq] at h1
                        exact h1.symm
  obtain ⟨X, hst1, hparsed⟩ := main
  have hget1 : storGet st1 key =
      some (Body.indexFile owner ownerType jobId period (updateIndexItems X item)) := by
    rw [hst1]; exact storGet_put_self _ _ _
  constructor
  · refine ⟨storPut st1 key (Body.indexFile owner ownerType jobId period
      (updateIndexItems (updateIndexItems X item) item)), ?_, ?_⟩
    · unfold updateIndex
      simp only [show directClient.get = storGet from rfl, hget1]
      rfl
    · rw [updateIndexItems_already _ _ (updateIndexItems_hasKey X item)]
      unfold itemsAt
      rw [storGet_put_self, hget1]
  · intro items0 hp hfresh
    have hX : X = items0 := by rw [hparsed] at hp; exact (Option.some.injEq _ _ ▸ hp)
    subst hX
    obtain ⟨hlen, hmem, hsorted⟩ := updateIndexItems_fresh X item hfresh
    refine ⟨updateIndexItems X item, ?_, hlen, hmem, hsorted⟩
    unfold itemsAt
    rw [hget1]

/-- The store produced by the first `updateIndex` call of the C4 witness. -/
def c4Item : IndexItem :=
  ⟨"acme", "org", "daily", "2024-11-03T00-00Z", "2024-11-02T00:00:00.000Z", "success", "mkey"⟩

def c4Store1 : Store :=
  storPut [] "idx/2024-11.json"
    (Body.indexFile "acme" "org" "daily" "2024-11" (updateIndexItems [] c4Item))

/-- Witness for C4 with an initially absent monthly file. -/
theorem C4_witness :
    ((∃ st2, updateIndex directClient c4Store1 "idx/2024-11.json" "acme" "org" "2024-11"
          c4Item "daily" = Except.ok st2 ∧
        itemsAt st2 "idx/2024-11.json" = itemsAt c4Store1 "idx/2024-11.json") ∧
      (∀ items0, parsedItems ([] : Store) "idx/2024-11.json" = some items0 →
        (∀ e ∈ items0, ¬(e.manifestKey = c4Item.manifestKey)) →
        ∃ its1, itemsAt c4Store1 "idx/2024-11.json" = some its1 ∧
          its1.length = items0.length + 1 ∧ c4Item ∈ its1 ∧
          List.Pairwise (fun a b => strLe a.windowStart b.windowStart = true) its1)) :=
  C4_updateIndex_idempotent [] "idx/2024-11.json" "acme" "org" "2024-11" "daily" c4Item
    c4Store1 rfl

/-- C5: contrary to the spec, `updateIndex` does not treat a corrupt
existing monthly index file as empty: `JSON.parse(existing)` throws, so the
call fails instead of writing a fresh index with the new item. -/
theorem C5_corrupt_index_throws (st : Store) (key raw owner ownerType period jobId : String)
    (item : IndexItem) (h : storGet st key = some (Body.corrupt raw)) :
    updateIndex directClient st key owner ownerType period item jobId =
      Except.error "SyntaxError: Unexpected token in JSON" := by
  unfold updateIndex
  simp only [show directClient.get = storGet from rfl, h]

/-- Witness for C5 at a concrete corrupt store. -/
theorem C5_witness :
    updateIndex directClient [("idx/2024-11.json", Body.corrupt "\x7b not json")]
        "idx/2024-11.json" "acme" "org" "2024-11" c4Item "daily" =
      Except.error "SyntaxError: Unexpected token in JSON" :=
  C5_corrupt_index_throws _ _ "\x7b not json" _ _ _ _ _ (by decide)

/-! ## Pipeline orchestration (`processors/pipeline.ts`, `runner/run-job.ts`,
and the `rerun` command)

GitHub fetching, LLM generation and webhook delivery are external effects;
they are abstracted as a `SlotOracle` saying whether each call succeeds
(throwing is `false`) and whether the fetched window is empty.  The effect
list in the result records which external calls were made. -/

inductive WindowResult where
  | skippedIdempotent | skippedEmpty | success | failed
deriving DecidableEq

inductive OnEmpty where
  | skip | manifestOnly | proceed
deriving DecidableEq

structure SlotOracle where
  fetchOk : Bool
  isEmpty : Bool
  genOk : Bool
  genText : String
  webhookOk : Bool

/-- The job configuration fields the orchestration reads. -/
structure JobM where
  id : String
  owner : String
  ownerType : String
  idempotentKey : Bool
  onEmpty : OnEmpty
  metricsOnly : Bool
  outPre : Option String
  backfillSlots : Int
  schedule : SlotSchedule

/-- The app configuration fields the orchestration reads (`cfg.tz` is the
offset function of `config.timeZone ?? "UTC"`). -/
structure CfgM where
  outPre : String
  tz : Int → Int
  webhookConfigured : Bool
  ext : String

def buildReportBaseKey (prfx ownerType owner jobId slotKey : String) : String :=
  prfx ++ "/" ++ ownerType ++ "/" ++ owner ++ "/" ++ jobId ++ "/" ++ slotKey

def buildIndexBaseKey (prfx ownerType owner jobId : String) : String :=
  prfx ++ "/_index/" ++ ownerType ++ "/" ++ owner ++ "/" ++ jobId

def buildJobsRegistryKey (prfx ownerType owner : String) : String :=
  prfx ++ "/_index/" ++ ownerType ++ "/" ++ owner ++ "/jobs.json"

/-- `formatMonthKey`: the `YYYY-MM` of an instant in the zone. -/
def formatMonthKey (t : Int) (tz : Int → Int) : String :=
  let L := t + tz t
  pad4 (civilFromDays (L / 1440)).year ++ "-" ++ pad2 (civilFromDays (L / 1440)).month

/-- `Date.toISOString` of a whole-minute instant. -/
def isoMinute (t : Int) : String :=
  pad4 (civilFromDays (t / 1440)).year ++ "-" ++ pad2 (civilFromDays (t / 1440)).month ++
  "-" ++ pad2 (civilFromDays (t / 1440)).day ++ "T" ++ pad2 (t / 60 % 24) ++ ":" ++
  pad2 (t % 60) ++ ":00.000Z"

/-- The `catch` block of `runPipelineWindow`: with `recordFailure` it
writes a failed manifest, summary, index entry and latest pointer — and if
`updateIndex` itself throws here the exception escapes the function. -/
def pipelineFailurePath {σ : Type} (C : StorClient σ) (st : σ) (job : JobM)
    (slotKey : String) (wstart : Int)
    (manifestKey summaryKey monthKey latestKey periodKey : String)
    (recordFailure : Bool) (effs : List String) :
    Except String (WindowResult × σ × List String) :=
  if recordFailure then
    let st1 := C.put st manifestKey (Body.manifestFile "failed" slotKey)
    let st2 := C.put st1 summaryKey (Body.summaryFile "failed" slotKey)
    let failedItem : IndexItem :=
      ⟨job.owner, job.ownerType, job.id, slotKey, isoMinute wstart, "failed", manifestKey⟩
    match updateIndex C st2 monthKey job.owner job.ownerType periodKey failedItem job.id with
    | Except.error e => Except.error e
    | Except.ok st3 =>
      Except.ok (WindowResult.failed,
        writeLatest C st3 latestKey job.owner job.ownerType failedItem job.id, effs)
  else
    Except.ok (WindowResult.failed, st, effs)

/-- Steps 7–8 of `runPipelineWindow`: manifest, summary, index entry,
latest pointer.  A throw from `updateIndex` falls into the catch block with
the state as written so far. -/
def pipelineSuccessPath {σ : Type} (C : StorClient σ) (st : σ) (job : JobM)
    (slotKey : String) (wstart : Int)
    (manifestKey summaryKey monthKey latestKey periodKey : String)
    (recordFailure : Bool) (effs : List String) :
    Except String (WindowResult × σ × List String) :=
  let st1 := C.put st manifestKey (Body.manifestFile "success" slotKey)
  let st2 := C.put st1 summaryKey (Body.summaryFile "success" slotKey)
  let item : IndexItem :=
    ⟨job.owner, job.ownerType, job.id, slotKey, isoMinute wstart, "success", manifestKey⟩
  match updateIndex C st2 monthKey job.owner job.ownerType periodKey item job.id with
  | Except.error _ =>
    pipelineFailurePath C st2 job slotKey wstart manifestKey summaryKey monthKey latestKey
      periodKey recordFailure effs
  | Except.ok st3 =>
    Except.ok (WindowResult.success,
      writeLatest C st3 latestKey job.owner job.ownerType item job.id, effs)

/-- `runPipelineWindow`. -/
def runPipelineWindow {σ : Type} (slot : SlotWindow) (job : JobM) (cfg : CfgM)
    (oracle : SlotOracle) (C : StorClient σ) (st : σ) (notify recordFailure : Bool) :
    Except String (WindowResult × σ × List String) :=
  let prfx := job.outPre.getD cfg.outPre
  let reportBaseKey := buildReportBaseKey prfx job.ownerType job.owner job.id slot.slotKey
  let indexBaseKey := buildIndexBaseKey prfx job.ownerType job.owner job.id
  let manifestKey := reportBaseKey ++ "/manifest.json"
  let summaryKey := reportBaseKey ++ "/summary.json"
  let periodKey := formatMonthKey slot.wstart cfg.tz
  let monthKey := indexBaseKey ++ "/" ++ periodKey ++ ".json"
  let latestKey := indexBaseKey ++ "/latest.json"
  if job.idempotentKey && C.existsKey st manifestKey then
    Except.ok (WindowResult.skippedIdempotent, st, [])
  else if oracle.fetchOk = false then
    pipelineFailurePath C st job slot.slotKey slot.wstart manifestKey summaryKey monthKey
      latestKey periodKey recordFailure ["fetch"]
  else if oracle.isEmpty = true ∧ job.onEmpty = OnEmpty.skip then
    Except.ok (WindowResult.skippedEmpty, st, ["fetch"])
  else if job.metricsOnly = false ∧ ¬(oracle.isEmpty = true ∧ job.onEmpty = OnEmpty.manifestOnly) then
    if oracle.isEmpty = false ∧ oracle.genOk = false then
      pipelineFailurePath C st job slot.slotKey slot.wstart manifestKey summaryKey monthKey
        latestKey periodKey recordFailure ["fetch", "generate"]
    else
      let effs := if oracle.isEmpty then ["fetch"] else ["fetch", "generate"]
      let st1 := C.put st (reportBaseKey ++ "/output." ++ cfg.ext)
        (Body.outputFile oracle.genText)
      if notify && cfg.webhookConfigured then
        if oracle.webhookOk then
          pipelineSuccessPath C st1 job slot.slotKey slot.wstart manifestKey summaryKey
            monthKey latestKey periodKey recordFailure (effs ++ ["webhook"])
        else
          pipelineFailurePath C st1 job slot.slotKey slot.wstart manifestKey summaryKey
            monthKey latestKey periodKey recordFailure (effs ++ ["webhook"])
      else
        pipelineSuccessPath C st1 job slot.slotKey slot.wstart manifestKey summaryKey
          monthKey latestKey periodKey recordFailure effs
  else
    pipelineSuccessPath C st job slot.slotKey slot.wstart manifestKey summaryKey monthKey
      latestKey periodKey recordFailure ["fetch"]

/-- The sequential slot loop of `runJobWithSchedule`. -/
def runJobSlots {σ : Type} (C : StorClient σ) (job : JobM) (cfg : CfgM)
    (oracle : String → SlotOracle) (notify recordFailure : Bool) :
    List SlotWindow → σ → Except String (List WindowResult × σ)
  | [], st => Except.ok ([], st)
  | s :: rest, st =>
    match runPipelineWindow s job cfg (oracle s.slotKey) C st notify recordFailure with
    | Except.error e => Except.error e
    | Except.ok (r, st1, _) =>
      match runJobSlots C job cfg oracle notify recordFailure rest st1 with
      | Except.error e => Except.error e
      | Except.ok (rs, st2) => Except.ok (r :: rs, st2)

/-- `runJobWithSchedule`: the schedule decision is abstracted as `due`;
when due, write the jobs registry, list the slots and run them newest
first. -/
def runJobWithSchedule {σ : Type} (now : Int) (job : JobM) (cfg : CfgM)
    (oracle : String → SlotOracle) (C : StorClient σ) (st : σ)
    (due notify recordFailure : Bool) : Except String (List WindowResult × σ) :=
  if due = false then Except.ok ([], st)
  else
    let jobsKey := buildJobsRegistryKey cfg.outPre job.ownerType job.owner
    let st1 := C.put st jobsKey Body.registryFile
    runJobSlots C job cfg oracle notify recordFailure
      (listSlots now job.schedule cfg.tz job.backfillSlots) st1

/-- The `rerun` command action: run the slot against a buffered store with
`recordFailure: false`; on success commit and delete stale keys, otherwise
discard the buffer. -/
def rerunAtSlot (base : Store) (slot : SlotWindow) (job : JobM) (cfg : CfgM)
    (oracle : SlotOracle) (notify : Bool) : Except String (WindowResult × Store) :=
  let prfx := job.outPre.getD cfg.outPre
  let reportBaseKey := buildReportBaseKey prfx job.ownerType job.owner job.id slot.slotKey
  let existingKeys := storList base reportBaseKey
  match runPipelineWindow slot job cfg oracle (bufClientOver base) ⟨[], []⟩ notify false with
  | Except.error e => Except.error e
  | Except.ok (res, bs, _) =>
    if res = WindowResult.success then
      let committed := bufCommit base bs
      let committedKeys := bs.writes.map (fun kv => kv.1)
      Except.ok (res, existingKeys.foldl
        (fun s k => if committedKeys.contains k then s else storDel s k) committed)
    else
      Except.ok (res, base)

/-- C8: when the job is idempotent and the manifest already exists, the run
is skipped with the store byte-for-byte unchanged and no external call
made. -/
theorem C8_idempotent_skip {σ : Type} (C : StorClient σ) (st : σ) (slot : SlotWindow)
    (job : JobM) (cfg : CfgM) (oracle : SlotOracle) (notify recordFailure : Bool)
    (hkey : job.idempotentKey = true)
    (hex : C.existsKey st (buildReportBaseKey (job.outPre.getD cfg.outPre) job.ownerType
      job.owner job.id slot.slotKey ++ "/manifest.json") = true) :
    runPipelineWindow slot job cfg oracle C st notify recordFailure =
      Except.ok (WindowResult.skippedIdempotent, st, []) := by
  simp [runPipelineWindow, hkey, hex]

/-- Witness for C8 at a direct store already holding the manifest. -/
theorem C8_witness :
    runPipelineWindow ⟨"2024-11-03T00-00Z", SlotType.daily, 0, 0, 0⟩
        ⟨"daily", "acme", "org", true, OnEmpty.proceed, false, none, 1, dailyMidnight⟩
        ⟨"reports", tzUTC, false, "md"⟩ ⟨true, false, true, "t", true⟩ directClient
        [("reports/org/acme/daily/2024-11-03T00-00Z/manifest.json",
          Body.manifestFile "success" "2024-11-03T00-00Z")] true true =
      Except.ok (WindowResult.skippedIdempotent,
        [("reports/org/acme/daily/2024-11-03T00-00Z/manifest.json",
          Body.manifestFile "success" "2024-11-03T00-00Z")], []) :=
  C8_idempotent_skip directClient _ _ _ _ _ true true rfl (by decide)

/-- C2: replace only after success — whenever the rerun's outcome is
anything other than `Success`, the buffer is discarded and the store is
exactly the prior store, so the manifest, summary and index entries of the
slot are byte-identical to before the attempt. -/
theorem C2_rerun_discard (base : Store) (slot : SlotWindow) (job : JobM) (cfg : CfgM)
    (oracle : SlotOracle) (notify : Bool) (res : WindowResult) (st' : Store)
    (h : rerunAtSlot base slot job cfg oracle notify = Except.ok (res, st'))
    (hns : ¬(res = WindowResult.success)) : st' = base := by
  unfold rerunAtSlot at h
  split at h
  · exact absurd h (by simp)
  · split at h
    · simp only [Except.ok.injEq, Prod.mk.injEq] at h
      exact absurd (h.1 ▸ ‹_›) hns
    · simp only [Except.ok.injEq, Prod.mk.injEq] at h
      exact h.2.symm

/-- A prior successful run of the C2 witness slot, as stored artifacts. -/
def c2Base : Store :=
  [("reports/org/acme/daily/2024-11-03T00-00Z/manifest.json",
     Body.manifestFile "success" "2024-11-03T00-00Z"),
   ("reports/org/acme/daily/2024-11-03T00-00Z/summary.json",
     Body.summaryFile "success" "2024-11-03T00-00Z"),
   ("reports/_index/org/acme/daily/2024-11.json",
     Body.indexFile "acme" "org" "daily" "2024-11"
       [⟨"acme", "org", "daily", "2024-11-03T00-00Z", "2024-11-02T00:00:00.000Z",
         "success", "reports/org/acme/daily/2024-11-03T00-00Z/manifest.json"⟩])]

def c2Job : JobM :=
  ⟨"daily", "acme", "org", false, OnEmpty.proceed, false, none, 1, dailyMidnight⟩

def c2Slot : SlotWindow :=
  ⟨"2024-11-03T00-00Z", SlotType.daily, utcMinutes 2024 11 3 0 0,
    utcMinutes 2024 11 2 0 0, utcMinutes 2024 11 3 0 0⟩

/-- Witness for C2: a rerun whose generation throws leaves the store
exactly as before. -/
theorem C2_witness :
    rerunAtSlot c2Base c2Slot c2Job ⟨"reports", tzUTC, false, "md"⟩
        ⟨true, false, false, "", true⟩ false = Except.ok (WindowResult.failed, c2Base) ∧
    c2Base = c2Base :=
  ⟨rfl, C2_rerun_discard c2Base c2Slot c2Job ⟨"reports", tzUTC, false, "md"⟩
    ⟨true, false, false, "", true⟩ false WindowResult.failed c2Base rfl (by decide)⟩

/-- The C1 scenario: a daily UTC job with two backfill slots where both
runs succeed. -/
def c1Job : JobM :=
  ⟨"daily", "acme", "org", false, OnEmpty.proceed, false, none, 2, dailyMidnight⟩

def c1Cfg : CfgM := ⟨"reports", tzUTC, false, "md"⟩

def c1Oracle : String → SlotOracle := fun _ => ⟨true, false, true, "report", true⟩

/-- The slot key recorded in the latest pointer, if the run succeeded and
one is stored. -/
def latestSlotKeyOf (e : Except String (List WindowResult × Store)) (latestKey : String) :
    Option String :=
  match e with
  | Except.ok (_, st) =>
    match storGet st latestKey with
    | some (Body.latestFile _ _ _ it) => some it.slotKey
    | _ => none
  | Except.error _ => none

/-- The slot keys present in the stored monthly index file. -/
def indexSlotKeysOf (e : Except String (List WindowResult × Store)) (monthKey : String) :
    List String :=
  match e with
  | Except.ok (_, st) =>
    match storGet st monthKey with
    | some (Body.indexFile _ _ _ _ items) => items.map (fun it => it.slotKey)
    | _ => []
  | Except.error _ => []

set_option maxRecDepth 100000

/-- C1 refutation: with `backfillSlots = 2` and both slots succeeding, the
final latest pointer holds the older slot `2024-11-02T00-00Z` although the
chronologically last item `2024-11-03T00-00Z` is present in the monthly
index — the orchestrator processes slots newest-first and overwrites the
pointer on every slot. -/
theorem C1_latest_pointer_stale :
    latestSlotKeyOf
        (runJobWithSchedule (utcMinutes 2024 11 3 10 0) c1Job c1Cfg c1Oracle directClient
          [] true true true)
        "reports/_index/org/acme/daily/latest.json" = some "2024-11-02T00-00Z" ∧
    indexSlotKeysOf
        (runJobWithSchedule (utcMinutes 2024 11 3 10 0) c1Job c1Cfg c1Oracle directClient
          [] true true true)
        "reports/_index/org/acme/daily/2024-11.json" =
      ["2024-11-02T00-00Z", "2024-11-03T00-00Z"] ∧
    strLt "2024-11-02T00-00Z" "2024-11-03T00-00Z" = true := by
  refine ⟨by decide, by decide, by decide⟩

/-- The items the monthly file of period `p` currently contributes
(`file.items ?? []`; absent or shapeless files contribute nothing). -/
def monthItemsAt (st : Store) (indexBase p : String) : List IndexItem :=
  match storGet st (indexBase ++ "/" ++ p ++ ".json") with
  | some (Body.indexFile _ _ _ _ its) => its
  | _ => []

/-- The union of the items of all monthly index files under `indexBase`. -/
def indexItemsUnion (st : Store) (indexBase : String) : List IndexItem :=
  (listIndexPeriods directClient st indexBase).flatMap (monthItemsAt st indexBase)

def isCorruptB : Option Body → Bool
  | some (Body.corrupt _) => true
  | _ => false

theorem collect_eq_union (st : Store) (indexBase : String) (ps : List String)
    (hparse : ∀ p ∈ ps,
      isCorruptB (storGet st (indexBase ++ "/" ++ p ++ ".json")) = false) :
    collectIndexItems directClient st indexBase ps =
      Except.ok (ps.flatMap (monthItemsAt st indexBase)) := by
  induction ps with
  | nil => rfl
  | cons p ps ih =>
    have hp := hparse p (by simp)
    have ihh := ih (fun q hq => hparse q (by simp [hq]))
    simp only [collectIndexItems, show directClient.get = storGet from rfl,
      List.flatMap_cons, monthItemsAt]
    cases hb : storGet st (indexBase ++ "/" ++ p ++ ".json") with
    | none => simpa using ihh
    | some b =>
      cases b with
      | corrupt raw => rw [hb] at hp; exact absurd hp (by simp [isCorruptB])
      | indexFile o ot j pr its => rw [ihh]; rfl
      | latestFile o ot j it => simpa using ihh
      | manifestFile a b' => simpa using ihh
      | summaryFile a b' => simpa using ihh
      | registryFile => simpa using ihh
      | outputFile t => simpa using ihh

theorem pickLatest_spec (items : List IndexItem) (cur : IndexItem) :
    (items.foldl (fun c it => if strLt c.slotKey it.slotKey then it else c) cur = cur ∨
      items.foldl (fun c it => if strLt c.slotKey it.slotKey then it else c) cur ∈ items) ∧
    strLe cur.slotKey
      (items.foldl (fun c it => if strLt c.slotKey it.slotKey then it else c) cur).slotKey
      = true ∧
    ∀ it ∈ items, strLe it.slotKey
      (items.foldl (fun c it => if strLt c.slotKey it.slotKey then it else c) cur).slotKey
      = true := by
  induction items generalizing cur with
  | nil => exact ⟨Or.inl rfl, strLe_refl _, by simp⟩
  | cons a as ih =>
    simp only [List.foldl_cons]
    by_cases hlt : strLt cur.slotKey a.slotKey = true
    · rw [if_pos hlt]
      obtain ⟨ihm, ihle, ihall⟩ := ih a
      refine ⟨?_, ?_, ?_⟩
      · rcases ihm with h | h
        · exact Or.inr (by simp [h])
        · exact Or.inr (by simp [h])
      · exact strLe_trans _ _ _ (strLt_imp_le _ _ hlt) ihle
      · intro it hit
        rcases List.mem_cons.mp hit with h | h
        · rw [h]; exact ihle
        · exact ihall it h
    · rw [if_neg hlt]
      obtain ⟨ihm, ihle, ihall⟩ := ih cur
      refine ⟨?_, ihle, ?_⟩
      · rcases ihm with h | h
        · exact Or.inl h
        · exact Or.inr (by simp [h])
      · intro it hit
        rcases List.mem_cons.mp hit with h | h
        · rw [h]
          exact strLe_trans _ _ _ (strLt_false_le _ _ (by simpa using hlt)) ihle
        · exact ihall it h

/-- C3 amended: on any store whose monthly index files under `indexBase`
all parse, `recomputeLatest` succeeds and either deletes the latest
pointer (no items anywhere) or writes an item of the union with the
lexical-maximum `slotKey` as the new pointer.  The parseability hypothesis
is the correction: on a corrupt monthly file the source throws instead
(see the counterexample). -/
theorem C3_amended_recompute (st : Store) (indexBase : String)
    (hparse : ∀ p ∈ listIndexPeriods directClient st indexBase,
      isCorruptB (storGet st (indexBase ++ "/" ++ p ++ ".json")) = false) :
    ∃ r st', recomputeLatest directClient st indexBase = Except.ok (r, st') ∧
      ((indexItemsUnion st indexBase = [] ∧ r = none ∧
          storGet st' (indexBase ++ "/latest.json") = none) ∨
        (∃ lat, r = some lat ∧ lat ∈ indexItemsUnion st indexBase ∧
          (∀ it ∈ indexItemsUnion st indexBase, strLe it.slotKey lat.slotKey = true) ∧
          storGet st' (indexBase ++ "/latest.json") =
            some (Body.latestFile lat.owner lat.ownerType lat.jobId lat))) := by
  have hcol : collectIndexItems directClient st indexBase
      (listIndexPeriods directClient st indexBase) =
      Except.ok (indexItemsUnion st indexBase) :=
    collect_eq_union st indexBase _ hparse
  unfold recomputeLatest
  rw [hcol]
  cases hu : indexItemsUnion st indexBase with
  | nil =>
    exact ⟨none, storDel st (indexBase ++ "/latest.json"), rfl,
      Or.inl ⟨rfl, rfl, storGet_del_self _ _⟩⟩
  | cons i rest =>
    obtain ⟨hmem, _, hall⟩ := pickLatest_spec (i :: rest) i
    refine ⟨_, _, rfl, Or.inr ⟨_, rfl, ?_, ?_, ?_⟩⟩
    · rcases hmem with h | h
      · rw [h]; simp
      · exact h
    · exact hall
    · exact storGet_put_self _ _ _

def c3Stale : IndexItem :=
  ⟨"acme", "org", "daily", "2024-10-01T00-00Z", "2024-09-30T00:00:00.000Z", "success", "mk0"⟩

/-- A store whose November monthly index file is unparseable while a stale
latest pointer is in place. -/
def c3Store : Store :=
  [("idx/2024-11.json", Body.corrupt "\x7b oops"),
   ("idx/latest.json", Body.latestFile "acme" "org" "daily" c3Stale)]

/-- C3 counterexample: on a store with a corrupt monthly index file,
`recomputeLatest` does not scan-union-select — `JSON.parse` throws and the
stale pointer is left in place, refuting the for-every-store claim. -/
theorem C3_counterexample :
    recomputeLatest directClient c3Store "idx" =
      Except.error "SyntaxError: Unexpected token in JSON" := by
  rfl

def c3ItemA : IndexItem :=
  ⟨"acme", "org", "daily", "2024-10-31T00-00Z", "2024-10-30T00:00:00.000Z", "success", "mkA"⟩

def c3ItemB : IndexItem :=
  ⟨"acme", "org", "daily", "2024-11-02T00-00Z", "2024-11-01T00:00:00.000Z", "success", "mkB"⟩

def c3ItemC : IndexItem :=
  ⟨"acme", "org", "daily", "2024-11-03T00-00Z", "2024-11-02T00:00:00.000Z", "success", "mkC"⟩

def c3GoodStore : Store :=
  [("idx/2024-10.json", Body.indexFile "acme" "org" "daily" "2024-10" [c3ItemA]),
   ("idx/2024-11.json", Body.indexFile "acme" "org" "daily" "2024-11" [c3ItemB, c3ItemC])]

/-- Witness for the amended C3 on a two-month store. -/
theorem C3_witness :
    ∃ r st', recomputeLatest directClient c3GoodStore "idx" = Except.ok (r, st') ∧
      ((indexItemsUnion c3GoodStore "idx" = [] ∧ r = none ∧
          storGet st' ("idx" ++ "/latest.json") = none) ∨
        (∃ lat, r = some lat ∧ lat ∈ indexItemsUnion c3GoodStore "idx" ∧
          (∀ it ∈ indexItemsUnion c3GoodStore "idx", strLe it.slotKey lat.slotKey = true) ∧
          storGet st' ("idx" ++ "/latest.json") =
            some (Body.latestFile lat.owner lat.ownerType lat.jobId lat))) :=
  C3_amended_recompute c3GoodStore "idx" (by decide)
